import Mathlib

/-!
Verification of the assessment engine of the `socrates` adaptive-tutoring
repository (`src/assessment_engine.py`, `src/learner_model.py`,
`src/tutor_mcp_server.py`), as a shallow embedding in Lean.

Modelling conventions:
* Python `int` becomes `Int` (arbitrary precision in both), window sizes
  used for list slicing become `Nat`.
* Python `float` arithmetic (severity averages, mastery scores, thresholds
  such as `0.3` and `0.85`) is modelled exactly over `ℚ`.
* Python timestamps (`datetime` values) are modelled as rational numbers of
  minutes; `datetime.fromisoformat` becomes a partial parse that fails on
  strings outside the image of the rendering (mirroring `ValueError`), and
  `now - t` is already a duration in minutes (Python divides
  `total_seconds()` by 60).
* A Python function that can raise becomes `Except String` valued; a pure
  function stays pure.
* `xs[-n:]` becomes `takeLastPy n xs` (for `n = 0` Python yields the whole
  list, which the definition reproduces).
* Python dicts that the code indexes by string keys become insertion-ordered
  association lists (`dictGet` / `dictSet`); this order is observable through
  `max(counts, key=counts.get)` in `_dominant_error_type`.
-/

/-- Python slice `xs[-n:]`: the last `n` elements, except that for `n = 0`
Python reads `xs[-0:] = xs[0:]`, the whole list. -/
def takeLastPy {α : Type} (n : Nat) (l : List α) : List α :=
  if n = 0 then l else l.drop (l.length - n)

/-- Lookup in an insertion-ordered association list (a Python dict read). -/
def dictGet {α : Type} (d : List (String × α)) (k : String) : Option α :=
  d.lookup k

/-- Write to an insertion-ordered association list (a Python dict write):
replace the first entry with the key, else append a new one. -/
def dictSet {α : Type} : List (String × α) → String → α → List (String × α)
  | [], k, v => [(k, v)]
  | (k', v') :: rest, k, v =>
    if k' = k then (k', v) :: rest else (k', v') :: dictSet rest k v

/-- Delete a key from an association list (Python `del d[k]`). -/
def dictRemove {α : Type} (d : List (String × α)) (k : String) : List (String × α) :=
  d.filter (fun kv => kv.1 ≠ k)

/-- Mutate the last element of a list, if any (Python `xs[-1]` update, guarded
by `if xs:` in the source). -/
def updateLast {α : Type} (f : α → α) : List α → List α
  | [] => []
  | [x] => [f x]
  | x :: y :: rest => x :: updateLast f (y :: rest)

/-! ## Data model (`src/learner_model.py`) -/

/-- One graded answer event (`learner_model.Attempt`). -/
structure Attempt where
  question_id : String
  learner_answer : String
  correct_answer : String
  is_correct : Bool
  error_type : Option String := none
  error_step : Option String := none
  bloom_level : Option String := none
  timestamp : String := ""
  deriving Repr, DecidableEq

/-- A logged misconception (`learner_model.Misconception`). -/
structure Misconception where
  description : String
  times_observed : Int := 1
  resolved : Bool := false
  first_seen : String := ""
  last_seen : String := ""
  deriving Repr, DecidableEq

/-- The three-tier difficulty band (`learner_model.ZPD`). -/
structure ZPD where
  current_level : String := "remember"
  stretch_level : String := "understand"
  too_hard_level : String := "analyze"
  deriving Repr, DecidableEq

/-- Per-topic session tracking (`learner_model.BreakState`).  Timestamp
fields keep the persisted string form. -/
structure BreakState where
  session_start_time : Option String := none
  last_break_suggestion : Option String := none
  last_break_taken : Option String := none
  breaks_taken : Int := 0
  break_cooldown_minutes : Int := 10
  consecutive_errors : Int := 0
  post_break_warmup : Bool := false
  error_severity_trend : List Int := []
  deriving Repr, DecidableEq

/-- Per-topic aggregate (`learner_model.TopicState`). -/
structure TopicState where
  mastery_level : ℚ := 0
  attempt_history : List Attempt := []
  trajectory : String := "unknown"
  misconceptions : List Misconception := []
  zpd : ZPD := {}
  productive_failures : Int := 0
  break_state : BreakState := {}
  deriving Repr, DecidableEq

/-- Prerequisite graph (`learner_model.TopicGraph`): a dict from topic key to
its ordered prerequisite list. -/
structure TopicGraph where
  prerequisites : List (String × List String) := []
  deriving Repr, DecidableEq

/-- Session summary (`learner_model.SessionSummary`). -/
structure SessionSummary where
  session_number : Int
  topic : String
  start_time : String
  end_time : Option String := none
  attempts_count : Int := 0
  correct_count : Int := 0
  mastery_start : ℚ := 0
  mastery_end : ℚ := 0
  breaks_taken : Int := 0
  deriving Repr, DecidableEq

/-- The per-learner document (`learner_model.LearnerProfile`). -/
structure LearnerProfile where
  learner_id : String
  session_count : Int := 0
  topics : List (String × TopicState) := []
  topic_graphs : List (String × TopicGraph) := []
  session_history : List SessionSummary := []
  deriving Repr, DecidableEq

/-! ## Error taxonomy (`assessment_engine.ERROR_SEVERITY`) -/

/-- `ERROR_SEVERITY.get(et, default)`: the dict maps `None ↦ 0`,
`"correct" ↦ 0`, `"computational" ↦ 1`, `"structural" ↦ 2`,
`"conceptual" ↦ 3`; any other key falls back to the supplied default. -/
def ERROR_SEVERITY_get (et : Option String) (default : Int) : Int :=
  match et with
  | none => 0
  | some "correct" => 0
  | some "computational" => 1
  | some "structural" => 2
  | some "conceptual" => 3
  | some _ => default

/-- Per-attempt severity score as computed inside `avg_severity`
(`assessment_engine.py` lines 40–47): `0` for a correct attempt, else
`ERROR_SEVERITY.get(a.error_type, 2)`. -/
def severityScore (a : Attempt) : Int :=
  if a.is_correct then 0 else ERROR_SEVERITY_get a.error_type 2

/-- `accuracy_scores.get(et, default)` in `compute_mastery`: the dict maps
`"correct" ↦ 1.0`, `"computational" ↦ 0.5`, `"structural" ↦ 0.25`,
`"conceptual" ↦ 0.0`; `None` is not a key, so it falls to the default. -/
def accuracy_scores_get (et : Option String) (default : ℚ) : ℚ :=
  match et with
  | some "correct" => 1
  | some "computational" => 1/2
  | some "structural" => 1/4
  | some "conceptual" => 0
  | _ => default

/-- Per-attempt accuracy score as computed inside `compute_mastery`
(`assessment_engine.py` lines 87–90). -/
def accuracy_score (a : Attempt) : ℚ :=
  if a.is_correct then 1 else accuracy_scores_get a.error_type (1/4)

/-! ## Trajectory analyzer (`assessment_engine.compute_trajectory`) -/

/-- `avg_severity` (`assessment_engine.py` lines 40–47): mean severity score
of a list of attempts, `0.0` for an empty list. -/
def avg_severity (atts : List Attempt) : ℚ :=
  let scores := atts.map severityScore
  if scores.isEmpty then 0 else ((scores.sum : Int) : ℚ) / (scores.length : ℚ)

/-- `compute_trajectory` (`assessment_engine.py` lines 23–57). -/
def compute_trajectory (attempts : List Attempt) (window : Nat := 5) : String :=
  if attempts.length < 3 then "unknown"
  else
    let recent := takeLastPy window attempts
    if recent.length < 3 then "unknown"
    else
      let mid := recent.length / 2
      let first_half := recent.take mid
      let second_half := recent.drop mid
      let delta := avg_severity first_half - avg_severity second_half
      if delta > 3/10 then "improving"
      else if delta < -(3/10) then "declining"
      else "flat"

/-! ## Mastery scorer (`assessment_engine.compute_mastery`) -/

/-- The accumulation loop of `compute_mastery` (`assessment_engine.py`
lines 85–92): running `(weighted_sum, weight_total)` over the enumerated
recent attempts, with recency weight `(i+1)/n`. -/
def masteryLoop (n : ℚ) : List Attempt → Nat → ℚ → ℚ → ℚ × ℚ
  | [], _, ws, wt => (ws, wt)
  | a :: rest, i, ws, wt =>
    let rw : ℚ := ((i : ℚ) + 1) / n
    masteryLoop n rest (i + 1) (ws + accuracy_score a * rw) (wt + rw)

/-- The body of `compute_mastery` on the already-sliced window. -/
def masteryCore (recent : List Attempt) : ℚ :=
  let n : ℚ := (recent.length : ℚ)
  let p := masteryLoop n recent 0 0 0
  let raw := if p.2 > 0 then p.1 / p.2 else 0
  raw * (n / (n + 5))

/-- `compute_mastery` (`assessment_engine.py` lines 60–101). -/
def compute_mastery (ts : TopicState) (window : Nat := 10) : ℚ :=
  let attempts := ts.attempt_history
  if attempts.isEmpty then 0
  else masteryCore (takeLastPy window attempts)

/-! ## Dominant-error classifier (`assessment_engine._dominant_error_type`) -/

/-- `a.error_type or "structural"`: Python `or` falls through on the falsy
values `None` and the empty string. -/
def errKey (a : Attempt) : String :=
  match a.error_type with
  | none => "structural"
  | some s => if s = "" then "structural" else s

/-- One Python dict-counter update `counts[et] = counts.get(et, 0) + 1` on an
insertion-ordered association list. -/
def assocIncr : List (String × Nat) → String → List (String × Nat)
  | [], k => [(k, 1)]
  | (k', c) :: rest, k =>
    if k' = k then (k', c + 1) :: rest else (k', c) :: assocIncr rest k

/-- `max(counts, key=counts.get)` over a Python dict iterated in insertion
order: the first key attaining the maximal count (Python `max` keeps the
earliest maximal element). -/
def pyMaxFst : List (String × Nat) → Option String
  | [] => none
  | p :: rest => some (rest.foldl (fun b q => if q.2 > b.2 then q else b) p).1

/-- `_dominant_error_type` (`assessment_engine.py` lines 104–115). -/
def dominant_error_type (attempts : List Attempt) (window : Nat := 5) : Option String :=
  let recent_errors := (takeLastPy window attempts).filter (fun a => !a.is_correct)
  if recent_errors.isEmpty then none
  else pyMaxFst (recent_errors.foldl (fun cs a => assocIncr cs (errKey a)) [])

/-- `detect_productive_failure` (`assessment_engine.py` lines 118–123). -/
def detect_productive_failure (attempt : Attempt) : Bool :=
  !attempt.is_correct && attempt.error_type = some "computational"

/-! ## Break monitor (`assessment_engine.check_break_needed`) -/

/-- The record returned by `check_break_needed`. -/
structure BreakCheck where
  needed : Bool
  reason : String
  urgency : String
  deriving Repr, DecidableEq

/-- Value of a nonempty digit string (most significant first); `none` when a
non-digit appears. -/
def digitsVal : List Char → Option Nat
  | [] => some 0
  | c :: cs =>
    if '0' ≤ c ∧ c ≤ '9' then
      (digitsVal cs).map (fun n => (c.toNat - 48) * 10 ^ cs.length + n)
    else none

/-- Model of the standard library `datetime.fromisoformat` on our rational
minute timestamps: it succeeds exactly on the canonical rendering (here a
nonempty decimal numeral of minutes) and fails — Python raises `ValueError` —
on every other string. -/
def isoParse (s : String) : Option ℚ :=
  match s.data with
  | [] => none
  | l => (digitsVal l).map (fun n => (n : ℚ))

/-- The message of the `ValueError` raised by an unparsable timestamp. -/
def isoError : String := "ValueError: Invalid isoformat string"

/-- Builds the session-length trigger result (`assessment_engine.py`
lines 179–186). -/
def trigger3Result (effective_minutes : ℚ) : Option BreakCheck :=
  if effective_minutes ≥ 45 then
    some { needed := true,
           reason := "You've been working for about " ++ toString effective_minutes.floor
             ++ " minutes without a break. A 5-10 minute break can improve retention.",
           urgency := "medium" }
  else none

/-- Trigger 3 of `check_break_needed` (`assessment_engine.py`
lines 168–186): the long-session check, evaluated only when the session
start time is truthy, measuring from the last break taken when that field is
truthy; an unparsable timestamp raises. -/
def trigger3Eval (now : ℚ) (break_state : BreakState) : Except String (Option BreakCheck) :=
  match break_state.session_start_time with
  | some s =>
    if s = "" then .ok none
    else
      match isoParse s with
      | some session_start =>
        let effective0 := now - session_start
        match break_state.last_break_taken with
        | some b =>
          if b = "" then .ok (trigger3Result effective0)
          else
            match isoParse b with
            | some t => .ok (trigger3Result (now - t))
            | none => .error isoError
        | none => .ok (trigger3Result effective0)
      | none => .error isoError
  | none => .ok none

/-- Trigger 4 of `check_break_needed` (`assessment_engine.py`
lines 188–201): escalating error severity over the last three trend
entries. -/
def check_break_trigger4 (break_state : BreakState) : Except String BreakCheck :=
  let result : BreakCheck := { needed := false, reason := "", urgency := "low" }
  let trend := break_state.error_severity_trend
  if trend.length ≥ 3 then
    match takeLastPy 3 trend with
    | [x, y, z] =>
      if x < y ∧ y < z ∧ z ≥ 2 then
        .ok { needed := true,
              reason := "Your errors are getting more fundamental over time. A break might help you approach the material with fresh eyes.",
              urgency := "medium" }
      else .ok result
    | _ => .ok result
  else .ok result

/-- Triggers 1–4 of `check_break_needed` (`assessment_engine.py`
lines 148–201): everything after the cooldown guard. -/
def check_break_triggers (now : ℚ) (break_state : BreakState) (trajectory : String) :
    Except String BreakCheck :=
  -- Trigger 1: Declining + consecutive errors
  if trajectory = "declining" ∧ break_state.consecutive_errors ≥ 3 then
      .ok { needed := true,
            reason := "Your trajectory is declining and you've had "
              ++ toString break_state.consecutive_errors
              ++ " consecutive errors. A short break can help reset your focus.",
            urgency := "high" }
    -- Trigger 2: Many consecutive errors
    else if break_state.consecutive_errors ≥ 5 then
      .ok { needed := true,
            reason := "You've had " ++ toString break_state.consecutive_errors
              ++ " consecutive errors. Sometimes stepping away for a few minutes helps you see things fresh.",
            urgency := "high" }
    else
      -- Trigger 3: Long session
      match trigger3Eval now break_state with
      | .error e => .error e
      | .ok (some r) => .ok r
      | .ok none =>
        -- Trigger 4: Error severity escalating
        check_break_trigger4 break_state

/-- `check_break_needed` (`assessment_engine.py` lines 126–201).  `now` is the
value of `datetime.now()`; a field is examined only when truthy (non-`None`,
nonempty), matching the Python `if` guards, and parsing a malformed timestamp
propagates the `ValueError`.  The cooldown guard suppresses every trigger. -/
def check_break_needed (now : ℚ) (break_state : BreakState) (trajectory : String) :
    Except String BreakCheck :=
  let result : BreakCheck := { needed := false, reason := "", urgency := "low" }
  -- Respect cooldown
  let cooldownActive : Except String Bool :=
    match break_state.last_break_suggestion with
    | some s =>
      if s = "" then .ok false
      else
        match isoParse s with
        | some last_suggestion =>
          .ok (decide (now - last_suggestion < (break_state.break_cooldown_minutes : ℚ)))
        | none => .error isoError
    | none => .ok false
  match cooldownActive with
  | .error e => .error e
  | .ok true => .ok result
  | .ok false => check_break_triggers now break_state trajectory

/-! ## Recommendation engine (`assessment_engine.compute_recommendation`) -/

/-- The action record returned by `compute_recommendation`; an `Option` field
set to `none` models a key absent from the Python dict. -/
structure Recommendation where
  action : String
  detail : String
  urgency : Option String := none
  post_break_warmup : Option Bool := none
  prerequisite_topic : Option String := none
  deriving Repr, DecidableEq

/-- Rules 2–8 of `compute_recommendation` (`assessment_engine.py`
lines 227–330): everything after the break check. -/
def recommendation_rest (trajectory : String) (dominant_error : Option String)
    (mastery : ℚ) (topic_graph : Option TopicGraph) (topic : String)
    (break_state : Option BreakState) : Recommendation :=
  -- Post-break warmup: give an easier question
  if (match break_state with | some bs => bs.post_break_warmup | none => false) then
    { action := "warmup",
      detail := "Welcome back! Let's start with a gentler question to ease back in." }
  -- All correct and mastery >= 0.85: advance
  else if dominant_error = none ∧ mastery ≥ 17/20 then
    { action := "keep_grinding",
      detail := "Mastery is strong. Increase difficulty — move up Bloom's taxonomy or introduce edge cases." }
  -- Declining trajectory
  else if trajectory = "declining" then
    match (match topic_graph with | some tg => dictGet tg.prerequisites topic | none => none) with
    | some (p :: _) =>
      { action := "go_back",
        detail := "Trajectory declining. Revisit prerequisite material.",
        prerequisite_topic := some p }
    | _ =>
      { action := "take_break",
        detail := "Trajectory declining and no prerequisite to fall back to. Suggest a short break before trying a different angle.",
        urgency := some "medium",
        post_break_warmup := some true }
  -- Conceptual errors
  else if dominant_error = some "conceptual" then
    if trajectory = "improving" then
      { action := "targeted_instruction",
        detail := "Conceptual gaps but improving. Provide a clear explanation of the underlying concept with a worked example." }
    else
      match (match topic_graph with | some tg => dictGet tg.prerequisites topic | none => none) with
      | some (p :: _) =>
        { action := "go_back",
          detail := "Persistent conceptual errors. Go back to prerequisites.",
          prerequisite_topic := some p }
      | _ =>
        { action := "targeted_instruction",
          detail := "Conceptual errors without prerequisite to revisit. Give a thorough explanation with multiple examples." }
  -- Structural errors
  else if dominant_error = some "structural" then
    if trajectory = "improving" then
      { action := "keep_grinding",
        detail := "Structural errors but improving. Continue with hints about the correct method/approach." }
    else
      { action := "targeted_instruction",
        detail := "Structural errors not improving. Teach the correct method step-by-step with a worked example." }
  -- Computational errors
  else if dominant_error = some "computational" then
    if trajectory = "improving" then
      { action := "keep_grinding",
        detail := "Computational errors but improving. Keep practicing." }
    else
      { action := "brief_tip",
        detail := "Computation errors. Give a quick tip about careful calculation or common pitfalls, then continue." }
  -- Default
  else
    { action := "keep_grinding",
      detail := "Continue with appropriately leveled questions." }

/-- `compute_recommendation` (`assessment_engine.py` lines 204–330): the break
check runs first (only when a break state is supplied) and may raise through
`check_break_needed`; its `needed` result wins over every later rule. -/
def compute_recommendation (now : ℚ) (trajectory : String) (dominant_error : Option String)
    (mastery : ℚ) (topic_graph : Option TopicGraph) (topic : String)
    (break_state : Option BreakState := none) : Except String Recommendation :=
  match break_state with
  | some bs =>
    match check_break_needed now bs trajectory with
    | .error e => .error e
    | .ok break_check =>
      if break_check.needed then
        .ok { action := "take_break",
              detail := break_check.reason,
              urgency := some break_check.urgency,
              post_break_warmup := some true }
      else .ok (recommendation_rest trajectory dominant_error mastery topic_graph topic break_state)
  | none => .ok (recommendation_rest trajectory dominant_error mastery topic_graph topic break_state)

/-! ## Tool layer (`src/tutor_mcp_server.py`)

Each tool is modelled by its effect on the learner profile (the
load–mutate–save cycle around every tool collapses to a pure state
transition); `nowS` stands for the string `datetime.now().isoformat()`
produces during the call.  `get_assessment` and `get_learner_profile` only
read the profile and are therefore not modelled as transitions. -/

/-- `_normalize_topic` (`tutor_mcp_server.py` lines 42–45). -/
def normalize_topic (topic : String) : String :=
  ((topic.trim.toLower).replace " " "_").replace "-" "_"

/-- The recurring guard `if topic not in profile.topics:
profile.topics[topic] = TopicState()`. -/
def ensure_topic (p : LearnerProfile) (topic : String) : LearnerProfile :=
  if (dictGet p.topics topic).isSome then p
  else { p with topics := dictSet p.topics topic {} }

/-- In-place mutation of one topic state (`ts = profile.topics[topic]`
followed by field writes). -/
def updateTopic (p : LearnerProfile) (topic : String) (f : TopicState → TopicState) :
    LearnerProfile :=
  match dictGet p.topics topic with
  | some ts => { p with topics := dictSet p.topics topic (f ts) }
  | none => p

/-- `start_session` (`tutor_mcp_server.py` lines 48–96), its profile
mutation. -/
def start_session (nowS : String) (p0 : LearnerProfile) (topic0 : String) : LearnerProfile :=
  let topic := normalize_topic topic0
  let p1 := { p0 with session_count := p0.session_count + 1 }
  let p2 := ensure_topic p1 topic
  match dictGet p2.topics topic with
  | none => p2
  | some ts =>
    let ts2 := { ts with break_state := { ts.break_state with
                   session_start_time := some nowS,
                   consecutive_errors := 0,
                   post_break_warmup := false,
                   error_severity_trend := [] } }
    let summary : SessionSummary :=
      { session_number := p2.session_count, topic := topic,
        start_time := nowS, mastery_start := ts.mastery_level }
    { p2 with topics := dictSet p2.topics topic ts2,
              session_history := p2.session_history ++ [summary] }

/-- `record_attempt` (`tutor_mcp_server.py` lines 100–175), its profile
mutation: append the attempt, update the break state, count productive
failures, then recompute trajectory and mastery and update the running
session summary. -/
def record_attempt (nowS : String) (p0 : LearnerProfile) (topic0 : String)
    (question_id learner_answer correct_answer : String) (is_correct : Bool)
    (error_type error_step bloom_level : Option String) : LearnerProfile :=
  let topic := normalize_topic topic0
  let p := ensure_topic p0 topic
  match dictGet p.topics topic with
  | none => p
  | some ts =>
    let bs := ts.break_state
    let attempt : Attempt :=
      { question_id := question_id, learner_answer := learner_answer,
        correct_answer := correct_answer, is_correct := is_correct,
        error_type := error_type, error_step := error_step,
        bloom_level := bloom_level, timestamp := nowS }
    let ts := { ts with attempt_history := ts.attempt_history ++ [attempt] }
    let bs2 :=
      if is_correct then { bs with consecutive_errors := 0, post_break_warmup := false }
      else
        let trend := bs.error_severity_trend ++ [ERROR_SEVERITY_get error_type 2]
        { bs with consecutive_errors := bs.consecutive_errors + 1,
                  error_severity_trend := if trend.length > 10 then takeLastPy 10 trend else trend }
    let ts := { ts with break_state := bs2 }
    let ts := if detect_productive_failure attempt then
        { ts with productive_failures := ts.productive_failures + 1 } else ts
    let ts := { ts with trajectory := compute_trajectory ts.attempt_history 5 }
    let ts := { ts with mastery_level := compute_mastery ts 10 }
    let p := { p with topics := dictSet p.topics topic ts }
    { p with session_history := updateLast (fun s =>
        { s with attempts_count := s.attempts_count + 1,
                 correct_count := s.correct_count + (if is_correct then 1 else 0),
                 mastery_end := ts.mastery_level }) p.session_history }

/-- `update_topic_mastery` (`tutor_mcp_server.py` lines 225–240): the manual
override, clamping into [0, 1]. -/
def update_topic_mastery (p0 : LearnerProfile) (topic0 : String) (mastery_level : ℚ) :
    LearnerProfile :=
  let topic := normalize_topic topic0
  let p := ensure_topic p0 topic
  updateTopic p topic (fun ts => { ts with mastery_level := max 0 (min 1 mastery_level) })

/-- The loop of `record_misconception` over `ts.misconceptions`: bump the
first case-insensitive match (re-opening it), else append a fresh record. -/
def recordMiscList (nowS description : String) : List Misconception → List Misconception
  | [] => [{ description := description, times_observed := 1, resolved := false,
             first_seen := nowS, last_seen := nowS }]
  | m :: ms =>
    if m.description.toLower = description.toLower then
      { m with times_observed := m.times_observed + 1, last_seen := nowS,
               resolved := false } :: ms
    else m :: recordMiscList nowS description ms

/-- `record_misconception` (`tutor_mcp_server.py` lines 244–281), its profile
mutation. -/
def record_misconception (nowS : String) (p0 : LearnerProfile) (topic0 description : String) :
    LearnerProfile :=
  let topic := normalize_topic topic0
  let p := ensure_topic p0 topic
  updateTopic p topic (fun ts =>
    { ts with misconceptions := recordMiscList nowS description ts.misconceptions })

/-- The loop of `resolve_misconception`: mark the first case-insensitive
match resolved; no match leaves the list unchanged. -/
def resolveMiscList (nowS description : String) : List Misconception → List Misconception
  | [] => []
  | m :: ms =>
    if m.description.toLower = description.toLower then
      { m with resolved := true, last_seen := nowS } :: ms
    else m :: resolveMiscList nowS description ms

/-- `resolve_misconception` (`tutor_mcp_server.py` lines 285–312), its profile
mutation (an unknown topic returns an error dict and saves nothing). -/
def resolve_misconception (nowS : String) (p0 : LearnerProfile) (topic0 description : String) :
    LearnerProfile :=
  let topic := normalize_topic topic0
  if (dictGet p0.topics topic).isSome then
    updateTopic p0 topic (fun ts =>
      { ts with misconceptions := resolveMiscList nowS description ts.misconceptions })
  else p0

/-- `store_topic_graph` (`tutor_mcp_server.py` lines 316–334).  Modelled from
the spec: the server calls `rebuild_unified_graph`, imported from
`learner_model` but absent from the repository's `src/learner_model.py`; the
spec describes no unified graph, so the call is kept as an opaque-to-us
parameter `rebuild`, and the invariant theorem assumes it leaves the topic
states unchanged. -/
def store_topic_graph (rebuild : LearnerProfile → LearnerProfile) (p0 : LearnerProfile)
    (topic0 : String) (prerequisites : List (String × List String)) : LearnerProfile :=
  let topic := normalize_topic topic0
  rebuild { p0 with topic_graphs := dictSet p0.topic_graphs topic ⟨prerequisites⟩ }

/-- `add_topics` (`tutor_mcp_server.py` lines 338–365), its profile mutation:
each topic is normalized and created with default state when absent. -/
def add_topics (p0 : LearnerProfile) (topics : List String) : LearnerProfile :=
  topics.foldl (fun p raw => ensure_topic p (normalize_topic raw)) p0

/-- `delete_topic` (`tutor_mcp_server.py` lines 369–383).  `rebuild` is the
missing `rebuild_unified_graph`, as in `store_topic_graph`. -/
def delete_topic (rebuild : LearnerProfile → LearnerProfile) (p0 : LearnerProfile)
    (topic0 : String) : LearnerProfile :=
  let topic := normalize_topic topic0
  if (dictGet p0.topics topic).isSome then
    rebuild { p0 with topics := dictRemove p0.topics topic,
                      topic_graphs := dictRemove p0.topic_graphs topic }
  else p0

/-- `record_break` (`tutor_mcp_server.py` lines 387–425), its profile
mutation (an unknown topic returns an error dict and saves nothing). -/
def record_break (nowS : String) (p0 : LearnerProfile) (topic0 : String) : LearnerProfile :=
  let topic := normalize_topic topic0
  match dictGet p0.topics topic with
  | none => p0
  | some ts =>
    let bs := ts.break_state
    let bs2 := { bs with
                 last_break_taken := some nowS,
                 breaks_taken := bs.breaks_taken + 1,
                 consecutive_errors := 0,
                 post_break_warmup := true,
                 error_severity_trend := [] }
    let p := { p0 with topics := dictSet p0.topics topic { ts with break_state := bs2 } }
    { p with session_history := updateLast (fun s =>
        { s with breaks_taken := s.breaks_taken + 1 }) p.session_history }

/-- `end_session` (`tutor_mcp_server.py` lines 429–461), its profile
mutation: stamp the end time of the running session summary. -/
def end_session (nowS : String) (p0 : LearnerProfile) : LearnerProfile :=
  { p0 with session_history := updateLast (fun s =>
      { s with end_time := some nowS }) p0.session_history }

/-! ## Reference definitions written from the specification's words

These are deliberately written from the sentences of `spec.md` (and of the
claims under scrutiny), to be compared with the definitions above that were
translated from the source. -/

/-- Test helper mirroring `make_attempt` of
`src/tests/test_assessment_engine.py`: a concrete attempt with the given
correctness flag and error category. -/
def make_attempt (is_correct : Bool) (error_type : Option String := none) : Attempt :=
  { question_id := "q", learner_answer := "a", correct_answer := "a",
    is_correct := is_correct, error_type := error_type }

/-- Specification severity (§4.1): 0 for a correct attempt; else
computational 1, structural 2, conceptual 3, and an absent or unrecognized
category defaults to structural (2). -/
def spec_severity (a : Attempt) : Int :=
  if a.is_correct then 0
  else
    match a.error_type with
    | some "computational" => 1
    | some "structural" => 2
    | some "conceptual" => 3
    | _ => 2

/-- An attempt whose category the taxonomy (§4.1) recognizes: correct, or one
of the three error categories. -/
def Recognized (a : Attempt) : Prop :=
  a.is_correct = true ∨ a.error_type = some "computational"
    ∨ a.error_type = some "structural" ∨ a.error_type = some "conceptual"

instance (a : Attempt) : Decidable (Recognized a) :=
  inferInstanceAs (Decidable (_ ∨ _ ∨ _ ∨ _))

/-- Specification mean severity of a half-window (§4.2): unweighted mean of
`spec_severity`, 0 for an empty list. -/
def ref_avg_severity (atts : List Attempt) : ℚ :=
  if atts = [] then 0
  else (((atts.map spec_severity).sum : Int) : ℚ) / (atts.length : ℚ)

/-- Trajectory analyzer as §4.2 words it: `unknown` below 3 attempts (in the
history or in the window slice); otherwise split at `mid = floor(count/2)`,
second half taking the extra element, and compare mean severities against the
`±0.3` thresholds. -/
def ref_trajectory (attempts : List Attempt) (window : Nat := 5) : String :=
  if attempts.length < 3 then "unknown"
  else
    let recent := takeLastPy window attempts
    if recent.length < 3 then "unknown"
    else
      let mid := recent.length / 2
      let delta := ref_avg_severity (recent.take mid) - ref_avg_severity (recent.drop mid)
      if delta > 3/10 then "improving"
      else if delta < -(3/10) then "declining"
      else "flat"

/-- Specification accuracy weight (§4.1/§4.3): correct 1.0; else
computational 0.5, structural 0.25, conceptual 0.0, the category "correct"
1.0, and an absent or unrecognized category defaults to 0.25. -/
def ref_accuracy (a : Attempt) : ℚ :=
  if a.is_correct then 1
  else
    match a.error_type with
    | some "correct" => 1
    | some "computational" => 1/2
    | some "structural" => 1/4
    | some "conceptual" => 0
    | _ => 1/4

/-- Mastery scorer as §4.3 words it: 0 on empty history, else over the last
window attempts indexed oldest-first `0..n-1` the weighted mean
`Σ(accuracy·(i+1)/n) / Σ((i+1)/n)`, multiplied by the confidence `n/(n+5)`. -/
def mastery_ref (ts : TopicState) (window : Nat := 10) : ℚ :=
  if ts.attempt_history = [] then 0
  else
    let recent := takeLastPy window ts.attempt_history
    let n : ℚ := (recent.length : ℚ)
    let num := (recent.enum.map (fun p => ref_accuracy p.2 * (((p.1 : ℚ) + 1) / n))).sum
    let den := (recent.enum.map (fun p => ((p.1 : ℚ) + 1) / n)).sum
    (num / den) * (n / (n + 5))

/-- Weighted accuracy sum `Σ accuracy_j · (j+1)` over a list whose first
element carries index `i` (proof-side normal form of the mastery loop). -/
def wsum : List Attempt → Nat → ℚ
  | [], _ => 0
  | a :: t, i => accuracy_score a * ((i : ℚ) + 1) + wsum t (i + 1)

/-- Weight sum `Σ (j+1)` over a list whose first element carries index `i`. -/
def wtot : List Attempt → Nat → ℚ
  | [], _ => 0
  | _ :: t, i => ((i : ℚ) + 1) + wtot t (i + 1)

/-- Plain accuracy sum of a list of attempts. -/
def ssum (l : List Attempt) : ℚ := (l.map accuracy_score).sum

/-- Closed form of the mastery score of a nonempty window `l`:
`2·wsum(l)/( (n+1)(n+5) )`. -/
def Mval (l : List Attempt) : ℚ :=
  2 * wsum l 0 / (((l.length : ℚ) + 1) * ((l.length : ℚ) + 5))

/-- Count held by a key in a counter association list (0 when absent). -/
def countKey (cs : List (String × Nat)) (k : String) : Nat :=
  match cs.lookup k with
  | some c => c
  | none => 0

/-- Scans keys in chronological order keeping running counts, returning the
key whose running count first reaches `m`. -/
def firstReachAux (m : Nat) : List String → List (String × Nat) → Option String
  | [], _ => none
  | k :: rest, cs =>
    let cs2 := assocIncr cs k
    if countKey cs2 k = m then some k else firstReachAux m rest cs2

/-- The tie-break rule exactly as the claim words it: the category that first
reaches the maximum count while scanning the window's incorrect attempts in
chronological order. -/
def first_to_reach_max (attempts : List Attempt) (window : Nat := 5) : Option String :=
  let recent_errors := (takeLastPy window attempts).filter (fun a => !a.is_correct)
  if recent_errors.isEmpty then none
  else
    let keys := recent_errors.map errKey
    let final := keys.foldl assocIncr []
    let m := (final.map Prod.snd).foldr max 0
    firstReachAux m keys []

/-- The distinct keys of a list in order of first occurrence. -/
def firstOccs : List String → List String
  | [] => []
  | k :: t => k :: (firstOccs t).filter (fun x => x ≠ k)

/-- Truthy timestamp fields as parsed values: `none` for an absent or empty
field, else the parse result (which the well-formedness predicate forces to
succeed). -/
def fieldVal (f : Option String) : Option ℚ :=
  match f with
  | none => none
  | some s => if s = "" then none else isoParse s

/-- A truthy timestamp field parses. -/
def ParsesOk : Option String → Prop
  | none => True
  | some s => s = "" ∨ (isoParse s).isSome

instance : (f : Option String) → Decidable (ParsesOk f)
  | none => isTrue trivial
  | some s => inferInstanceAs (Decidable (s = "" ∨ (isoParse s).isSome))

/-- All three persisted timestamp fields of a break state are absent, empty,
or parseable. -/
def WFBreakState (bs : BreakState) : Prop :=
  ParsesOk bs.last_break_suggestion ∧ ParsesOk bs.session_start_time
    ∧ ParsesOk bs.last_break_taken

instance (bs : BreakState) : Decidable (WFBreakState bs) :=
  inferInstanceAs (Decidable (_ ∧ _ ∧ _))

/-- The severity-escalation condition shared by the reference break monitors:
the last three trend entries strictly increase and the most recent is ≥ 2. -/
def trendEscalates (trend : List Int) : Bool :=
  if trend.length ≥ 3 then
    match takeLastPy 3 trend with
    | [x, y, z] => decide (x < y ∧ y < z ∧ z ≥ 2)
    | _ => false
  else false

/-- The break monitor exactly as claim C3 words it, on parsed values — in
particular, trigger 3 measures from the last break taken only when that break
falls inside the current session (`b ≥ s`); returns (needed, urgency). -/
def claimed_check_break (now : ℚ) (lastSuggestion sessionStart lastBreak : Option ℚ)
    (cooldown consec : Int) (trajectory : String) (trend : List Int) : Bool × String :=
  if (match lastSuggestion with
      | some t => decide (now - t < (cooldown : ℚ))
      | none => false) then (false, "low")
  else if trajectory = "declining" ∧ consec ≥ 3 then (true, "high")
  else if consec ≥ 5 then (true, "high")
  else if (match sessionStart with
           | some s =>
             decide ((match lastBreak with
                      | some b => if b ≥ s then now - b else now - s
                      | none => now - s) ≥ 45)
           | none => false) then (true, "medium")
  else if trendEscalates trend then (true, "medium")
  else (false, "low")

/-- The amended reference break monitor: as `claimed_check_break` but
trigger 3 measures from the last break taken whenever one is recorded, even
one predating the current session — which is what the source does. -/
def amended_check_break (now : ℚ) (lastSuggestion sessionStart lastBreak : Option ℚ)
    (cooldown consec : Int) (trajectory : String) (trend : List Int) : Bool × String :=
  if (match lastSuggestion with
      | some t => decide (now - t < (cooldown : ℚ))
      | none => false) then (false, "low")
  else if trajectory = "declining" ∧ consec ≥ 3 then (true, "high")
  else if consec ≥ 5 then (true, "high")
  else if (match sessionStart with
           | some s =>
             decide ((match lastBreak with
                      | some b => now - b
                      | none => now - s) ≥ 45)
           | none => false) then (true, "medium")
  else if trendEscalates trend then (true, "medium")
  else (false, "low")

/-- The (needed, urgency) verdict of a break check record. -/
def breakVerdict (r : BreakCheck) : Bool × String := (r.needed, r.urgency)

/-- A topic state whose stored mastery and trajectory agree with re-running
the scorers over its current attempt history (at the defaults the tool layer
uses). -/
def validTS (ts : TopicState) : Prop :=
  ts.mastery_level = compute_mastery ts 10
    ∧ ts.trajectory = compute_trajectory ts.attempt_history 5

instance (ts : TopicState) : Decidable (validTS ts) :=
  inferInstanceAs (Decidable (_ ∧ _))

/-- The derived-fields invariant of claim C9 over a whole profile. -/
def ProfileInv (p : LearnerProfile) : Prop :=
  ∀ kv ∈ p.topics, validTS kv.2

instance (p : LearnerProfile) : Decidable (ProfileInv p) :=
  List.decidableBAll _ p.topics

/-- The advancement record of rule 3 of `compute_recommendation`
(`assessment_engine.py` lines 237–244). -/
def advanceRecommendation : Recommendation :=
  { action := "keep_grinding",
    detail := "Mastery is strong. Increase difficulty — move up Bloom's taxonomy or introduce edge cases." }

/-- The maximum count of a counter association list (`max` over the dict's
values, 0 when empty). -/
def maxSnd (cs : List (String × Nat)) : Nat := (cs.map Prod.snd).foldr max 0

/-- The error categories (structural default applied) of the incorrect
attempts of the last window, in chronological order — the key stream that
`_dominant_error_type` tallies. -/
def windowErrorKeys (attempts : List Attempt) (window : Nat := 5) : List String :=
  ((takeLastPy window attempts).filter (fun a => !a.is_correct)).map errKey

/-- The tie window of claim C2's counterexample: four incorrect attempts,
computational, structural, structural, computational — both categories end
with count 2, "computational" enters the tally first, "structural" reaches
count 2 first. -/
def tieExample : List Attempt :=
  [make_attempt false (some "computational"), make_attempt false (some "structural"),
   make_attempt false (some "structural"), make_attempt false (some "computational")]

/-! ## Lemmas about the mastery scorer -/

theorem accuracy_score_nonneg (a : Attempt) : 0 ≤ accuracy_score a := by
  unfold accuracy_score accuracy_scores_get
  split
  · norm_num
  · split <;> norm_num

theorem accuracy_score_le_one (a : Attempt) : accuracy_score a ≤ 1 := by
  unfold accuracy_score accuracy_scores_get
  split
  · norm_num
  · split <;> norm_num

theorem ref_accuracy_eq (a : Attempt) : ref_accuracy a = accuracy_score a := by
  unfold ref_accuracy accuracy_score accuracy_scores_get
  split
  · rfl
  · split <;> rfl

theorem masteryLoop_eq (n : ℚ) (l : List Attempt) : ∀ (i : Nat) (ws wt : ℚ),
    masteryLoop n l i ws wt = (ws + wsum l i / n, wt + wtot l i / n) := by
  induction l with
  | nil => intro i ws wt; simp [masteryLoop, wsum, wtot]
  | cons a t ih =>
    intro i ws wt
    rw [masteryLoop, ih]
    simp only [wsum, wtot, Prod.mk.injEq]
    constructor <;> ring

theorem wtot_eq (l : List Attempt) : ∀ i : Nat,
    wtot l i = (l.length : ℚ) * i + (l.length : ℚ) * ((l.length : ℚ) + 1) / 2 := by
  induction l with
  | nil => intro i; simp [wtot]
  | cons a t ih =>
    intro i
    rw [wtot, ih]
    simp only [List.length_cons]
    push_cast
    ring

theorem wsum_nonneg (l : List Attempt) : ∀ i : Nat, 0 ≤ wsum l i := by
  induction l with
  | nil => intro i; simp [wsum]
  | cons a t ih =>
    intro i
    rw [wsum]
    have h1 := accuracy_score_nonneg a
    have h2 := ih (i + 1)
    positivity

theorem wsum_le_wtot (l : List Attempt) : ∀ i : Nat, wsum l i ≤ wtot l i := by
  induction l with
  | nil => intro i; simp [wsum, wtot]
  | cons a t ih =>
    intro i
    rw [wsum, wtot]
    have h1 := accuracy_score_le_one a
    have h2 := ih (i + 1)
    have h3 : (0 : ℚ) ≤ (i : ℚ) + 1 := by positivity
    nlinarith

theorem wsum_snoc (l : List Attempt) (a : Attempt) : ∀ i : Nat,
    wsum (l ++ [a]) i = wsum l i + accuracy_score a * ((i : ℚ) + (l.length : ℚ) + 1) := by
  induction l with
  | nil =>
    intro i
    simp only [List.nil_append, wsum, List.length_nil]
    push_cast
    ring
  | cons b t ih =>
    intro i
    simp only [List.cons_append, wsum, List.length_cons, List.append_eq, ih]
    push_cast
    ring

theorem ssum_cons (a : Attempt) (t : List Attempt) : ssum (a :: t) = accuracy_score a + ssum t := by
  simp [ssum]

theorem wsum_shift (l : List Attempt) : ∀ i : Nat, wsum l (i + 1) = wsum l i + ssum l := by
  induction l with
  | nil => intro i; simp [wsum, ssum]
  | cons a t ih =>
    intro i
    simp only [wsum, ssum_cons]
    rw [ih (i + 1), ih i]
    push_cast
    ring

theorem ssum_le_length (l : List Attempt) : ssum l ≤ (l.length : ℚ) := by
  induction l with
  | nil => simp [ssum]
  | cons a t ih =>
    rw [ssum_cons]
    have := accuracy_score_le_one a
    simp only [List.length_cons]
    push_cast
    linarith

theorem masteryCore_eq_Mval (l : List Attempt) (h : l ≠ []) : masteryCore l = Mval l := by
  have hlen : 0 < l.length := List.length_pos.mpr h
  have hn : (0 : ℚ) < (l.length : ℚ) := by exact_mod_cast hlen
  have hw : wtot l 0 = (l.length : ℚ) * ((l.length : ℚ) + 1) / 2 := by
    rw [wtot_eq l 0]; ring
  simp only [masteryCore, Mval, masteryLoop_eq, zero_add, hw]
  rw [if_pos (by positivity)]
  field_simp
  ring

theorem Mval_nonneg (l : List Attempt) : 0 ≤ Mval l := by
  unfold Mval
  have h := wsum_nonneg l 0
  apply div_nonneg (by linarith) (by positivity)

theorem Mval_lt_one (l : List Attempt) : Mval l < 1 := by
  have h1 := wsum_le_wtot l 0
  have h2 := wtot_eq l 0
  have h0 := wsum_nonneg l 0
  have hm : (0 : ℚ) ≤ (l.length : ℚ) := by positivity
  rw [Mval, div_lt_one (by positivity)]
  nlinarith

theorem Mval_mono_num (l₁ l₂ : List Attempt) (hlen : l₁.length = l₂.length)
    (hw : wsum l₁ 0 ≤ wsum l₂ 0) : Mval l₁ ≤ Mval l₂ := by
  unfold Mval
  rw [hlen]
  gcongr

theorem Mval_append_correct (l : List Attempt) (a : Attempt) (ha : a.is_correct = true) :
    Mval l ≤ Mval (l ++ [a]) := by
  have hacc : accuracy_score a = 1 := by simp [accuracy_score, ha]
  have hW0 := wsum_nonneg l 0
  have hWt := wsum_le_wtot l 0
  have hT := wtot_eq l 0
  set m : ℚ := (l.length : ℚ) with hm
  have hm0 : (0 : ℚ) ≤ m := by rw [hm]; positivity
  have hW2 : wsum l 0 ≤ m * (m + 1) / 2 := by rw [hT] at hWt; linarith
  have hsnoc : wsum (l ++ [a]) 0 = wsum l 0 + (m + 1) := by
    rw [wsum_snoc l a 0, hacc]
    push_cast
    ring
  unfold Mval
  rw [hsnoc]
  have hlen2 : (((l ++ [a]).length : ℚ)) = m + 1 := by
    rw [hm]; push_cast [List.length_append, List.length_singleton]; ring
  rw [hlen2]
  rw [div_le_div_iff (by positivity) (by positivity)]
  have key : (0 : ℚ) ≤ (2 * m + 7) * (m * (m + 1) / 2 - wsum l 0) :=
    mul_nonneg (by linarith) (by linarith)
  nlinarith [mul_nonneg hm0 hm0, mul_nonneg (mul_nonneg hm0 hm0) hm0]

theorem Mval_slide (b : Attempt) (t : List Attempt) (a : Attempt) (ha : a.is_correct = true) :
    Mval (b :: t) ≤ Mval (t ++ [a]) := by
  have hacc : accuracy_score a = 1 := by simp [accuracy_score, ha]
  have hb := accuracy_score_le_one b
  have hs := ssum_le_length t
  set m : ℚ := (t.length : ℚ) with hm
  have hsnoc : wsum (t ++ [a]) 0 = wsum t 0 + (m + 1) := by
    rw [wsum_snoc t a 0, hacc]
    push_cast
    ring
  have hcons : wsum (b :: t) 0 = accuracy_score b + wsum t 0 + ssum t := by
    have := wsum_shift t 0
    simp only [wsum, Nat.cast_zero, zero_add]
    rw [this]
    ring
  apply Mval_mono_num
  · simp
  · rw [hsnoc, hcons]
    linarith

theorem takeLastPy_of_le {α : Type} (n : Nat) (l : List α) (h : l.length ≤ n) :
    takeLastPy n l = l := by
  unfold takeLastPy
  split
  · rfl
  · rw [Nat.sub_eq_zero_of_le h, List.drop_zero]

theorem takeLastPy_length_le {α : Type} (n : Nat) (l : List α) (hn : n ≠ 0) :
    (takeLastPy n l).length ≤ n := by
  unfold takeLastPy
  rw [if_neg hn, List.length_drop]
  omega

theorem takeLastPy_ne_nil {α : Type} (n : Nat) (l : List α) (h : l ≠ []) :
    takeLastPy n l ≠ [] := by
  have hp : 0 < l.length := List.length_pos.mpr h
  unfold takeLastPy
  split
  · exact h
  · intro hc
    have := congrArg List.length hc
    rw [List.length_drop] at this
    simp at this
    omega

theorem takeLastPy_idem {α : Type} (n : Nat) (l : List α) :
    takeLastPy n (takeLastPy n l) = takeLastPy n l := by
  by_cases hn : n = 0
  · subst hn; rfl
  · exact takeLastPy_of_le n _ (takeLastPy_length_le n l hn)

theorem takeLastPy_snoc_of_lt {α : Type} (n : Nat) (l : List α) (a : α)
    (h : l.length < n) : takeLastPy n (l ++ [a]) = l ++ [a] := by
  apply takeLastPy_of_le
  rw [List.length_append]
  simp
  omega

theorem takeLastPy_snoc_slide {α : Type} (n : Nat) (l : List α) (a : α)
    (hn : n ≠ 0) (h : n ≤ l.length) :
    takeLastPy n (l ++ [a]) = (takeLastPy n l).tail ++ [a] := by
  unfold takeLastPy
  rw [if_neg hn, if_neg hn]
  rw [List.length_append, List.length_singleton]
  have h1 : l.length + 1 - n ≤ l.length := by omega
  rw [List.drop_append_of_le_length h1, List.tail_drop]
  have h2 : l.length + 1 - n = l.length - n + 1 := by omega
  rw [h2]

theorem takeLastPy_zero {α : Type} (l : List α) : takeLastPy 0 l = l := rfl

theorem takeLastPy_singleton {α : Type} (w : Nat) (a : α) : takeLastPy w [a] = [a] := by
  by_cases hw : w = 0
  · subst hw; rfl
  · exact takeLastPy_of_le w [a] (by simp; omega)

theorem compute_mastery_append_correct (ts : TopicState) (w : Nat) (a : Attempt)
    (ha : a.is_correct = true) :
    compute_mastery ts w
      ≤ compute_mastery { ts with attempt_history := ts.attempt_history ++ [a] } w := by
  rw [show compute_mastery ts w
        = (if ts.attempt_history.isEmpty then 0
           else masteryCore (takeLastPy w ts.attempt_history)) from rfl,
      show compute_mastery { ts with attempt_history := ts.attempt_history ++ [a] } w
        = (if (ts.attempt_history ++ [a]).isEmpty then 0
           else masteryCore (takeLastPy w (ts.attempt_history ++ [a]))) from rfl]
  have hne2 : (ts.attempt_history ++ [a]).isEmpty = false := by simp
  rw [hne2]
  simp only [Bool.false_eq_true, if_false]
  by_cases hl : ts.attempt_history.isEmpty
  · rw [if_pos hl]
    have hnil : ts.attempt_history = [] := by simpa [List.isEmpty_iff] using hl
    rw [hnil, List.nil_append, takeLastPy_singleton]
    rw [masteryCore_eq_Mval [a] (by simp)]
    exact Mval_nonneg [a]
  · rw [if_neg hl]
    have hlne : ts.attempt_history ≠ [] := by
      simpa [List.isEmpty_iff] using hl
    by_cases hw0 : w = 0
    · subst hw0
      rw [takeLastPy_zero, takeLastPy_zero]
      rw [masteryCore_eq_Mval _ hlne, masteryCore_eq_Mval _ (by simp [hlne])]
      exact Mval_append_correct _ a ha
    · by_cases hlt : ts.attempt_history.length < w
      · rw [takeLastPy_of_le w _ (le_of_lt hlt), takeLastPy_snoc_of_lt w _ a hlt]
        rw [masteryCore_eq_Mval _ hlne, masteryCore_eq_Mval _ (by simp [hlne])]
        exact Mval_append_correct _ a ha
      · have hle : w ≤ ts.attempt_history.length := le_of_not_lt hlt
        rw [takeLastPy_snoc_slide w _ a hw0 hle]
        have hrec_ne : takeLastPy w ts.attempt_history ≠ [] :=
          takeLastPy_ne_nil w _ hlne
        obtain ⟨b, rest, hbr⟩ := List.exists_cons_of_ne_nil hrec_ne
        rw [hbr]
        rw [masteryCore_eq_Mval _ (by simp), masteryCore_eq_Mval _ (by simp)]
        simpa using Mval_slide b rest a ha

theorem enum_map_wsum (n : ℚ) (l : List Attempt) : ∀ i : Nat,
    ((List.enumFrom i l).map (fun p => accuracy_score p.2 * (((p.1 : ℚ) + 1) / n))).sum
      = wsum l i / n := by
  induction l with
  | nil => intro i; simp [wsum]
  | cons a t ih =>
    intro i
    rw [List.enumFrom_cons]
    simp only [List.map_cons, List.sum_cons, wsum]
    rw [ih (i + 1)]
    ring

theorem enum_map_wtot (n : ℚ) (l : List Attempt) : ∀ i : Nat,
    ((List.enumFrom i l).map (fun p => (((p.1 : ℚ) + 1) / n))).sum = wtot l i / n := by
  induction l with
  | nil => intro i; simp [wtot]
  | cons a t ih =>
    intro i
    rw [List.enumFrom_cons]
    simp only [List.map_cons, List.sum_cons, wtot]
    rw [ih (i + 1)]
    ring

theorem compute_mastery_eq_ref (ts : TopicState) (w : Nat) :
    compute_mastery ts w = mastery_ref ts w := by
  by_cases hemp : ts.attempt_history = []
  · simp [compute_mastery, mastery_ref, hemp]
  · have hleft : compute_mastery ts w = masteryCore (takeLastPy w ts.attempt_history) := by
      rw [show compute_mastery ts w
            = (if ts.attempt_history.isEmpty then 0
               else masteryCore (takeLastPy w ts.attempt_history)) from rfl]
      simp [List.isEmpty_iff, hemp]
    rw [hleft]
    have hlne : takeLastPy w ts.attempt_history ≠ [] := takeLastPy_ne_nil w _ hemp
    set l := takeLastPy w ts.attempt_history with hl
    have hn : (0 : ℚ) < (l.length : ℚ) := by
      have := List.length_pos.mpr hlne
      exact_mod_cast this
    rw [masteryCore_eq_Mval l hlne]
    simp only [mastery_ref, if_neg hemp, ref_accuracy_eq, ← hl]
    rw [show l.enum = List.enumFrom 0 l from rfl]
    rw [enum_map_wsum, enum_map_wtot, wtot_eq l 0]
    unfold Mval
    have h0 : (l.length : ℚ) ≠ 0 := ne_of_gt hn
    field_simp
    ring

theorem compute_mastery_nonneg (ts : TopicState) (w : Nat) : 0 ≤ compute_mastery ts w := by
  rw [show compute_mastery ts w
        = (if ts.attempt_history.isEmpty then 0
           else masteryCore (takeLastPy w ts.attempt_history)) from rfl]
  split
  · exact le_refl 0
  · rename_i hne
    have hlne : takeLastPy w ts.attempt_history ≠ [] := by
      apply takeLastPy_ne_nil
      simpa [List.isEmpty_iff] using hne
    rw [masteryCore_eq_Mval _ hlne]
    exact Mval_nonneg _

theorem compute_mastery_lt_one (ts : TopicState) (w : Nat) : compute_mastery ts w < 1 := by
  rw [show compute_mastery ts w
        = (if ts.attempt_history.isEmpty then 0
           else masteryCore (takeLastPy w ts.attempt_history)) from rfl]
  split
  · norm_num
  · rename_i hne
    have hlne : takeLastPy w ts.attempt_history ≠ [] := by
      apply takeLastPy_ne_nil
      simpa [List.isEmpty_iff] using hne
    rw [masteryCore_eq_Mval _ hlne]
    exact Mval_lt_one _

theorem compute_mastery_window_cap (ts : TopicState) (w : Nat) :
    compute_mastery ts w
      = compute_mastery { ts with attempt_history := takeLastPy w ts.attempt_history } w := by
  rw [show compute_mastery ts w
        = (if ts.attempt_history.isEmpty then 0
           else masteryCore (takeLastPy w ts.attempt_history)) from rfl,
      show compute_mastery { ts with attempt_history := takeLastPy w ts.attempt_history } w
        = (if (takeLastPy w ts.attempt_history).isEmpty then 0
           else masteryCore (takeLastPy w (takeLastPy w ts.attempt_history))) from rfl]
  rw [takeLastPy_idem]
  by_cases hemp : ts.attempt_history = []
  · rw [hemp]
    simp [takeLastPy]
  · have h1 : ts.attempt_history.isEmpty = false := by simpa [List.isEmpty_iff] using hemp
    have h2 : (takeLastPy w ts.attempt_history).isEmpty = false := by
      simpa [List.isEmpty_iff] using takeLastPy_ne_nil w _ hemp
    rw [h1, h2]

/-- C5: `compute_mastery` equals the specification's reference definition
(0 on empty history, else the recency-weighted accuracy mean times the
confidence `n/(n+5)` over the last window), its result lies in `[0, 1)`, and
a history longer than the window scores exactly as its last window attempts
alone. -/
theorem compute_mastery_matches_spec :
    (∀ (ts : TopicState) (window : Nat), compute_mastery ts window = mastery_ref ts window)
    ∧ (∀ (ts : TopicState) (window : Nat),
        0 ≤ compute_mastery ts window ∧ compute_mastery ts window < 1)
    ∧ (∀ (ts : TopicState) (window : Nat),
        compute_mastery ts window
          = compute_mastery { ts with attempt_history := takeLastPy window ts.attempt_history }
              window) :=
  ⟨compute_mastery_eq_ref,
   fun ts w => ⟨compute_mastery_nonneg ts w, compute_mastery_lt_one ts w⟩,
   compute_mastery_window_cap⟩

/-- C6: appending a correct attempt at the most recent position never
decreases `compute_mastery`, for every history and fixed window. -/
theorem compute_mastery_append_correct_monotone :
    ∀ (ts : TopicState) (window : Nat) (a : Attempt), a.is_correct = true →
      compute_mastery ts window
        ≤ compute_mastery { ts with attempt_history := ts.attempt_history ++ [a] } window :=
  fun ts w a ha => compute_mastery_append_correct ts w a ha

/-- Witness for C6 at a concrete history: two structural errors, then a
correct attempt appended. -/
theorem compute_mastery_append_correct_monotone_witness :
    compute_mastery
        { attempt_history := [make_attempt false (some "structural"),
                              make_attempt false (some "structural")] } 10
      ≤ compute_mastery
          { ({ attempt_history := [make_attempt false (some "structural"),
                                   make_attempt false (some "structural")] } : TopicState) with
            attempt_history := [make_attempt false (some "structural"),
                                make_attempt false (some "structural")] ++ [make_attempt true none] }
          10 :=
  compute_mastery_append_correct_monotone
    { attempt_history := [make_attempt false (some "structural"),
                          make_attempt false (some "structural")] }
    10 (make_attempt true none) rfl

theorem Mval_le_twothirds (l : List Attempt) (hlen : l.length ≤ 10) : Mval l ≤ 10/15 := by
  have hW0 := wsum_nonneg l 0
  have hWt := wsum_le_wtot l 0
  have hT := wtot_eq l 0
  set m : ℚ := (l.length : ℚ) with hm
  have hm0 : (0 : ℚ) ≤ m := by rw [hm]; positivity
  have hm10 : m ≤ 10 := by rw [hm]; exact_mod_cast hlen
  have hW2 : wsum l 0 ≤ m * (m + 1) / 2 := by rw [hT] at hWt; linarith
  unfold Mval
  rw [div_le_div_iff (by positivity) (by norm_num)]
  have key : (0 : ℚ) ≤ (m + 1) * (10 - m) := mul_nonneg (by linarith) (by linarith)
  nlinarith

theorem compute_mastery_ten_le (ts : TopicState) : compute_mastery ts 10 ≤ 10/15 := by
  rw [show compute_mastery ts 10
        = (if ts.attempt_history.isEmpty then 0
           else masteryCore (takeLastPy 10 ts.attempt_history)) from rfl]
  split
  · norm_num
  · rename_i hne
    have hlne : takeLastPy 10 ts.attempt_history ≠ [] :=
      takeLastPy_ne_nil 10 _ (by simpa [List.isEmpty_iff] using hne)
    rw [masteryCore_eq_Mval _ hlne]
    exact Mval_le_twothirds _ (takeLastPy_length_le 10 _ (by norm_num))

theorem recommendation_rest_ne_advance (traj : String) (dom : Option String) (mastery : ℚ)
    (hm : mastery < 17/20) (tg : Option TopicGraph) (topic : String) (obs : Option BreakState) :
    recommendation_rest traj dom mastery tg topic obs ≠ advanceRecommendation := by
  intro h
  unfold recommendation_rest at h
  split_ifs at h with h1 h2 h3 h4 h5 h6 <;>
    first
      | (exact absurd h2.2 (by linarith))
      | (split at h <;> simp_all [advanceRecommendation])
      | simp_all [advanceRecommendation]

/-- C10: with the default window of 10 the computed mastery never exceeds
10/15, so the advancement rule of `compute_recommendation` (dominant error
none and mastery ≥ 0.85) can never fire on a computed — as opposed to
manually overridden — mastery value. -/
theorem computed_mastery_never_advances :
    (∀ ts : TopicState, compute_mastery ts 10 ≤ 10/15)
    ∧ (∀ (now : ℚ) (trajectory : String) (dominant_error : Option String) (ts : TopicState)
        (topic_graph : Option TopicGraph) (topic : String) (break_state : Option BreakState),
        compute_recommendation now trajectory dominant_error (compute_mastery ts 10)
            topic_graph topic break_state ≠ Except.ok advanceRecommendation) := by
  constructor
  · exact compute_mastery_ten_le
  · intro now traj dom ts tg topic obs h
    have hm : compute_mastery ts 10 < 17/20 :=
      lt_of_le_of_lt (compute_mastery_ten_le ts) (by norm_num)
    rcases obs with _ | bs
    · simp only [compute_recommendation, Except.ok.injEq] at h
      exact recommendation_rest_ne_advance _ _ _ hm _ _ _ h
    · simp only [compute_recommendation] at h
      cases hcb : check_break_needed now bs traj with
      | error e =>
        rw [hcb] at h
        exact absurd h (by simp)
      | ok c =>
        rw [hcb] at h
        replace h :
            (if c.needed = true then
               Except.ok { action := "take_break", detail := c.reason,
                           urgency := some c.urgency, post_break_warmup := some true,
                           prerequisite_topic := none }
             else
               Except.ok (recommendation_rest traj dom (compute_mastery ts 10) tg topic
                 (some bs))) = Except.ok advanceRecommendation := h
        by_cases hn : c.needed
        · rw [if_pos hn] at h
          simp [advanceRecommendation] at h
        · rw [if_neg hn] at h
          simp only [Except.ok.injEq] at h
          exact recommendation_rest_ne_advance _ _ _ hm _ _ _ h

/-! ## Claims C1 and C7: the taxonomy defaults and the trajectory analyzer -/

/-- C1 counterexample: an incorrect attempt whose error category is absent is
scored severity 0 — `ERROR_SEVERITY` maps the key `None` to 0, so the
`.get(…, 2)` default never applies — not the severity 2 the claim states,
both in the trajectory half-means (`severityScore`) and in the value
`record_attempt` appends to the break-state severity trend
(`ERROR_SEVERITY_get a.error_type 2`). -/
theorem severity_absent_category_counterexample :
    severityScore (make_attempt false none) = 0
    ∧ ERROR_SEVERITY_get (make_attempt false none).error_type 2 = 0
    ∧ ¬severityScore (make_attempt false none) = 2 := by
  decide

/-- C1 amended: for an incorrect attempt, an unrecognized (present, outside
the taxonomy) category is assigned severity 2 wherever severity is computed
and accuracy weight 0.25 in mastery scoring; an absent category is assigned
accuracy weight 0.25 but severity 0 (the `ERROR_SEVERITY` dict maps `None`
to 0, the score of a correct answer). -/
theorem unclassified_error_defaults (a : Attempt) (hc : a.is_correct = false) :
    (a.error_type = none →
      severityScore a = 0 ∧ ERROR_SEVERITY_get a.error_type 2 = 0
        ∧ accuracy_score a = 1/4)
    ∧ (∀ s : String, a.error_type = some s →
        s ∉ (["correct", "computational", "structural", "conceptual"] : List String) →
        severityScore a = 2 ∧ ERROR_SEVERITY_get a.error_type 2 = 2
          ∧ accuracy_score a = 1/4) := by
  constructor
  · intro hn
    simp [severityScore, ERROR_SEVERITY_get, accuracy_score, accuracy_scores_get, hc, hn]
  · intro s hs hmem
    simp only [List.mem_cons, List.mem_singleton, not_or] at hmem
    obtain ⟨h1, h2, h3, h4⟩ := hmem
    simp [severityScore, ERROR_SEVERITY_get, accuracy_score, accuracy_scores_get,
      hc, hs, h1, h2, h3, h4]

/-- Witness for C1's amended statement at a concrete incorrect attempt
carrying the unrecognized category "weird". -/
theorem unclassified_error_defaults_witness :
    severityScore (make_attempt false (some "weird")) = 2
    ∧ ERROR_SEVERITY_get (make_attempt false (some "weird")).error_type 2 = 2
    ∧ accuracy_score (make_attempt false (some "weird")) = 1/4 :=
  (unclassified_error_defaults (make_attempt false (some "weird")) rfl).2
    "weird" rfl (by decide)

theorem severity_eq_of_recognized (a : Attempt) (h : Recognized a) :
    severityScore a = spec_severity a := by
  rcases h with h | h | h | h <;>
    simp [severityScore, spec_severity, ERROR_SEVERITY_get, h]

theorem avg_eq_of_recognized (l : List Attempt) (h : ∀ a ∈ l, Recognized a) :
    avg_severity l = ref_avg_severity l := by
  unfold avg_severity ref_avg_severity
  have hmap : l.map severityScore = l.map spec_severity :=
    List.map_congr_left (fun a ha => severity_eq_of_recognized a (h a ha))
  rw [hmap]
  by_cases hemp : l = []
  · simp [hemp]
  · simp only [List.isEmpty_iff, List.map_eq_nil_iff]
    rw [if_neg hemp, if_neg hemp]
    simp

/-- C7: `compute_trajectory` returns "unknown" whenever the history or the
last-window slice has fewer than 3 entries, whatever the attempts hold; and
on windows whose categories are all recognized it agrees with the
specification's split-and-compare definition (`mid = floor(count/2)`, second
half taking the extra element, thresholds `±0.3`). -/
theorem compute_trajectory_matches_spec :
    (∀ (attempts : List Attempt) (window : Nat),
        attempts.length < 3 ∨ (takeLastPy window attempts).length < 3 →
        compute_trajectory attempts window = "unknown")
    ∧ (∀ (attempts : List Attempt) (window : Nat),
        (∀ a ∈ takeLastPy window attempts, Recognized a) →
        compute_trajectory attempts window = ref_trajectory attempts window) := by
  constructor
  · intro attempts window h
    rcases h with h | h <;> simp [compute_trajectory, h]
  · intro attempts window h
    by_cases h3 : attempts.length < 3
    · simp [compute_trajectory, ref_trajectory, h3]
    · by_cases h3' : (takeLastPy window attempts).length < 3
      · simp [compute_trajectory, ref_trajectory, h3, h3']
      · have hfirst :
            avg_severity ((takeLastPy window attempts).take
              ((takeLastPy window attempts).length / 2))
              = ref_avg_severity ((takeLastPy window attempts).take
                  ((takeLastPy window attempts).length / 2)) :=
          avg_eq_of_recognized _ (fun a ha => h a (List.take_subset _ _ ha))
        have hsecond :
            avg_severity ((takeLastPy window attempts).drop
              ((takeLastPy window attempts).length / 2))
              = ref_avg_severity ((takeLastPy window attempts).drop
                  ((takeLastPy window attempts).length / 2)) :=
          avg_eq_of_recognized _ (fun a ha => h a (List.drop_subset _ _ ha))
        simp only [compute_trajectory, ref_trajectory, h3, h3', if_false, hfirst, hsecond]

/-- Witness for C7's second conjunct on the improving six-attempt history of
the unit tests. -/
theorem compute_trajectory_matches_spec_witness :
    compute_trajectory
        [make_attempt false (some "structural"), make_attempt false (some "structural"),
         make_attempt false (some "conceptual"), make_attempt true none,
         make_attempt true none, make_attempt true none] 5
      = ref_trajectory
          [make_attempt false (some "structural"), make_attempt false (some "structural"),
           make_attempt false (some "conceptual"), make_attempt true none,
           make_attempt true none, make_attempt true none] 5 :=
  compute_trajectory_matches_spec.2
    [make_attempt false (some "structural"), make_attempt false (some "structural"),
     make_attempt false (some "conceptual"), make_attempt true none,
     make_attempt true none, make_attempt true none] 5 (by decide)

/-! ## Lemmas about the dominant-error classifier -/

theorem maxSnd_cons (p : String × Nat) (L : List (String × Nat)) :
    maxSnd (p :: L) = max p.2 (maxSnd L) := by
  simp [maxSnd]

theorem le_maxSnd (L : List (String × Nat)) : ∀ p ∈ L, p.2 ≤ maxSnd L := by
  induction L with
  | nil => intro p hp; cases hp
  | cons a t ih =>
    intro p hp
    rw [maxSnd_cons]
    rcases List.mem_cons.mp hp with h | h
    · subst h; exact le_max_left _ _
    · exact le_trans (ih p h) (le_max_right _ _)

theorem maxSnd_tail_le (p : String × Nat) (L : List (String × Nat)) :
    maxSnd L ≤ maxSnd (p :: L) := by
  rw [maxSnd_cons]; exact le_max_right _ _

theorem pyfold (L : List (String × Nat)) : ∀ b : String × Nat,
    (maxSnd L ≤ b.2 → L.foldl (fun b q => if q.2 > b.2 then q else b) b = b)
    ∧ (b.2 < maxSnd L →
        L.find? (fun q => q.2 == maxSnd L)
          = some (L.foldl (fun b q => if q.2 > b.2 then q else b) b)) := by
  induction L with
  | nil =>
    intro b
    refine ⟨fun _ => rfl, fun h => absurd h ?_⟩
    simp [maxSnd]
  | cons a t ih =>
    intro b
    constructor
    · intro hle
      rw [maxSnd_cons] at hle
      have ha : ¬(a.2 > b.2) := by omega
      rw [List.foldl_cons, if_neg ha]
      exact (ih b).1 (by omega)
    · intro hlt
      rw [maxSnd_cons] at hlt
      rw [List.foldl_cons]
      by_cases ha : a.2 > b.2
      · rw [if_pos ha]
        by_cases hM : maxSnd t ≤ a.2
        · have hMa : max a.2 (maxSnd t) = a.2 := max_eq_left hM
          rw [List.find?_cons, maxSnd_cons, hMa]
          have : (a.2 == a.2) = true := by simp
          rw [this]
          rw [(ih a).1 hM]
        · push_neg at hM
          have hMa : max a.2 (maxSnd t) = maxSnd t := max_eq_right (le_of_lt hM)
          rw [List.find?_cons, maxSnd_cons, hMa]
          have : (a.2 == maxSnd t) = false := by
            simp only [beq_eq_false_iff_ne, ne_eq]
            omega
          rw [this]
          exact (ih a).2 hM
      · rw [if_neg ha]
        push_neg at ha
        have hM : b.2 < maxSnd t := by
          rcases max_cases a.2 (maxSnd t) with ⟨he, _⟩ | ⟨he, _⟩ <;> omega
        have hMa : max a.2 (maxSnd t) = maxSnd t := max_eq_right (by omega)
        rw [List.find?_cons, maxSnd_cons, hMa]
        have : (a.2 == maxSnd t) = false := by
          simp only [beq_eq_false_iff_ne, ne_eq]
          omega
        rw [this]
        exact (ih b).2 hM

theorem pyMaxFst_eq_find? (L : List (String × Nat)) (h : L ≠ []) :
    ∃ r : String × Nat,
      L.find? (fun q => q.2 == maxSnd L) = some r ∧ pyMaxFst L = some r.1 := by
  match L, h with
  | p :: rest, _ =>
    rcases le_or_lt (maxSnd (p :: rest)) p.2 with hle | hlt
    · have hp2 : p.2 = maxSnd (p :: rest) :=
        le_antisymm (le_maxSnd _ p (List.mem_cons_self p rest)) hle
      refine ⟨p, ?_, ?_⟩
      · rw [List.find?_cons, show (p.2 == maxSnd (p :: rest)) = true by simp [hp2]]
      · show some ((rest.foldl (fun b q => if q.2 > b.2 then q else b) p).1) = some p.1
        rw [(pyfold rest p).1 (le_trans (maxSnd_tail_le p rest) hle)]
    · have hMa : maxSnd (p :: rest) = maxSnd rest := by
        rw [maxSnd_cons] at hlt ⊢
        omega
      have hp2 : (p.2 == maxSnd (p :: rest)) = false := by
        simp only [beq_eq_false_iff_ne, ne_eq]
        omega
      refine ⟨rest.foldl (fun b q => if q.2 > b.2 then q else b) p, ?_, ?_⟩
      · rw [List.find?_cons, hp2, hMa]
        exact (pyfold rest p).2 (by omega)
      · rfl

theorem mem_firstOccs (x : String) : ∀ p : List String, x ∈ firstOccs p ↔ x ∈ p := by
  intro p
  induction p with
  | nil => simp [firstOccs]
  | cons k t ih =>
    simp only [firstOccs, List.mem_cons, List.mem_filter, ih]
    by_cases hx : x = k
    · simp [hx]
    · simp [hx]

theorem nodup_firstOccs : ∀ p : List String, (firstOccs p).Nodup := by
  intro p
  induction p with
  | nil => exact List.nodup_nil
  | cons k t ih =>
    rw [firstOccs, List.nodup_cons]
    constructor
    · intro hmem
      have := (List.mem_filter.mp hmem).2
      simp at this
    · exact ih.filter _

theorem firstOccs_snoc (k : String) : ∀ p : List String,
    firstOccs (p ++ [k]) = if k ∈ p then firstOccs p else firstOccs p ++ [k] := by
  intro p
  induction p with
  | nil => simp [firstOccs]
  | cons a t ih =>
    simp only [List.cons_append, firstOccs, List.append_eq, ih, List.mem_cons]
    by_cases hk : k ∈ t
    · simp [hk]
    · rw [if_neg hk]
      by_cases hka : k = a
      · subst hka
        rw [if_pos (Or.inl rfl)]
        rw [List.filter_append]
        simp [firstOccs]
      · rw [if_neg (by rintro (h | h); exacts [hka h, hk h])]
        rw [List.filter_append]
        simp only [firstOccs, List.filter_cons, List.filter_nil]
        have hd : (decide ¬(k = a)) = true := by simp [hka]
        simp [hd]

theorem assocIncr_map (k : String) (f : String → Nat) : ∀ l : List String, l.Nodup →
    assocIncr (l.map (fun x => (x, f x))) k
      = if k ∈ l then l.map (fun x => (x, if x = k then f x + 1 else f x))
        else l.map (fun x => (x, f x)) ++ [(k, 1)] := by
  intro l
  induction l with
  | nil => intro _; simp [assocIncr]
  | cons a t ih =>
    intro hnd
    rw [List.nodup_cons] at hnd
    simp only [List.map_cons, assocIncr]
    by_cases hak : a = k
    · subst hak
      rw [if_pos rfl, if_pos (List.mem_cons_self a t)]
      congr 1
      · simp
      · apply List.map_congr_left
        intro x hx
        have hxa : ¬x = a := by
          intro hc
          exact hnd.1 (hc ▸ hx)
        rw [if_neg hxa]
    · rw [if_neg hak, ih hnd.2]
      by_cases hkt : k ∈ t
      · rw [if_pos hkt, if_pos (List.mem_cons.mpr (Or.inr hkt))]
        congr 1
        simp [hak]
      · rw [if_neg hkt,
            if_neg (by
              intro hc
              rcases List.mem_cons.mp hc with h | h
              exacts [hak h.symm, hkt h])]
        simp

theorem counts_eq : ∀ p : List String,
    p.foldl assocIncr [] = (firstOccs p).map (fun x => (x, p.count x)) := by
  intro p
  induction p using List.reverseRecOn with
  | nil => simp [firstOccs]
  | append_singleton p k ih =>
    rw [List.foldl_append, List.foldl_cons, List.foldl_nil, ih]
    rw [assocIncr_map k _ _ (nodup_firstOccs p), firstOccs_snoc]
    by_cases hk : k ∈ p
    · rw [if_pos ((mem_firstOccs k p).mpr hk), if_pos hk]
      apply List.map_congr_left
      intro x hx
      rw [List.count_append, List.count_singleton]
      by_cases hxk : x = k
      · subst hxk
        simp
      · have hb : (k == x) = false := by
          rw [beq_eq_false_iff_ne]
          intro hc
          exact hxk hc.symm
        rw [hb]
        simp [hxk]
    · rw [if_neg (fun hc => hk ((mem_firstOccs k p).mp hc)), if_neg hk]
      rw [List.map_append]
      congr 1
      · apply List.map_congr_left
        intro x hx
        have hx2 : x ∈ p := (mem_firstOccs x p).mp hx
        have hxk : ¬x = k := fun hc => hk (hc ▸ hx2)
        rw [List.count_append, List.count_singleton]
        have hb : (k == x) = false := by
          rw [beq_eq_false_iff_ne]
          intro hc
          exact hxk hc.symm
        rw [hb]
        simp
      · simp only [List.map_cons, List.map_nil]
        rw [List.count_append, List.count_singleton]
        have h0 : p.count k = 0 := List.count_eq_zero.mpr hk
        simp [h0]

theorem find_map_first (f : String → Nat) (M : Nat) :
    ∀ (occs : List String) (r : String × Nat),
      (occs.map (fun x => (x, f x))).find? (fun q => q.2 == M) = some r →
      f r.1 = M ∧ ∃ o1 o2, occs = o1 ++ r.1 :: o2 ∧ ∀ x ∈ o1, f x ≠ M := by
  intro occs
  induction occs with
  | nil => intro r h; simp at h
  | cons a t ih =>
    intro r h
    rw [List.map_cons, List.find?_cons] at h
    cases hfa : (f a == M) with
    | true =>
      rw [hfa] at h
      replace h : some (a, f a) = some r := h
      have hr : r = (a, f a) := (Option.some.injEq _ _ ▸ h).symm
      subst hr
      refine ⟨by simpa using hfa, [], t, rfl, by simp⟩
    | false =>
      rw [hfa] at h
      replace h : (t.map fun x => (x, f x)).find? (fun q => q.2 == M) = some r := h
      obtain ⟨hf, o1, o2, heq, hall⟩ := ih r h
      refine ⟨hf, a :: o1, o2, by rw [heq, List.cons_append], ?_⟩
      intro x hx
      rcases List.mem_cons.mp hx with hxa | hxo
      · subst hxa
        simpa using hfa
      · exact hall x hxo

theorem firstOccs_sorted : ∀ ks : List String,
    (firstOccs ks).Pairwise (fun a b => ks.indexOf a < ks.indexOf b) := by
  intro ks
  induction ks with
  | nil => simp [firstOccs]
  | cons k t ih =>
    rw [firstOccs, List.pairwise_cons]
    constructor
    · intro b hb
      have hbk : (k == b) = false := by
        have := (List.mem_filter.mp hb).2
        rw [beq_eq_false_iff_ne]
        intro hc
        simp [hc.symm] at this
      rw [List.indexOf_cons_self, List.indexOf_cons, hbk]
      simp
    · refine List.Pairwise.imp_of_mem ?_
        (List.Pairwise.sublist (List.filter_sublist _) ih)
      intro a b ha hb hlt
      have hak : (k == a) = false := by
        have := (List.mem_filter.mp ha).2
        rw [beq_eq_false_iff_ne]
        intro hc
        simp [hc.symm] at this
      have hbk : (k == b) = false := by
        have := (List.mem_filter.mp hb).2
        rw [beq_eq_false_iff_ne]
        intro hc
        simp [hc.symm] at this
      rw [List.indexOf_cons, List.indexOf_cons, hak, hbk]
      simpa using hlt

theorem firstOccs_ne_nil (ks : List String) (h : ks ≠ []) : firstOccs ks ≠ [] := by
  cases ks with
  | nil => exact absurd rfl h
  | cons k t => simp [firstOccs]

/-- C2 counterexample: on the window computational, structural, structural,
computational (four incorrect attempts, both categories tied at 2) the code
returns "computational" — the tied category that entered the tally first —
while the claim's rule (first to reach the maximum count while scanning
chronologically) picks "structural". -/
theorem dominant_error_tie_counterexample :
    dominant_error_type tieExample 5 = some "computational"
    ∧ first_to_reach_max tieExample 5 = some "structural"
    ∧ dominant_error_type tieExample 5 ≠ first_to_reach_max tieExample 5 := by
  decide

/-- C2 amended: `_dominant_error_type` returns `none` exactly when the last
window holds no incorrect attempt; otherwise it returns a category of the
window's error-key stream with maximal count, and among tied categories the
one whose FIRST OCCURRENCE in the chronological scan is earliest (Python's
`max` over the insertion-ordered counter dict) — not the one that first
reaches the maximum count. -/
theorem dominant_error_first_occurrence :
    ∀ (attempts : List Attempt) (window : Nat),
      (dominant_error_type attempts window = none ↔ windowErrorKeys attempts window = [])
      ∧ ∀ c, dominant_error_type attempts window = some c →
          c ∈ windowErrorKeys attempts window
          ∧ (∀ x, (windowErrorKeys attempts window).count x
                ≤ (windowErrorKeys attempts window).count c)
          ∧ ∀ x, (windowErrorKeys attempts window).count x
                = (windowErrorKeys attempts window).count c →
              (windowErrorKeys attempts window).indexOf c
                ≤ (windowErrorKeys attempts window).indexOf x := by
  intro attempts window
  have hdef : dominant_error_type attempts window
      = (if ((takeLastPy window attempts).filter (fun a => !a.is_correct)).isEmpty then none
         else pyMaxFst (((takeLastPy window attempts).filter (fun a => !a.is_correct)).foldl
             (fun cs a => assocIncr cs (errKey a)) [])) := rfl
  have hkeys : windowErrorKeys attempts window
      = ((takeLastPy window attempts).filter (fun a => !a.is_correct)).map errKey := rfl
  set errs := (takeLastPy window attempts).filter (fun a => !a.is_correct) with herrs
  by_cases hemp : errs.isEmpty
  · have hnil : errs = [] := List.isEmpty_iff.mp hemp
    rw [hdef, if_pos hemp]
    constructor
    · simp [hkeys, hnil]
    · intro c hc
      exact absurd hc (by simp)
  · have hne : errs ≠ [] := by simpa [List.isEmpty_iff] using hemp
    have hksne : errs.map errKey ≠ [] := by simpa using hne
    have hfold : errs.foldl (fun cs a => assocIncr cs (errKey a)) []
        = (errs.map errKey).foldl assocIncr [] := (List.foldl_map _ _ _ _).symm
    set ks := errs.map errKey with hks
    have hcounts : ks.foldl assocIncr []
        = (firstOccs ks).map (fun x => (x, ks.count x)) := counts_eq ks
    have hcne : ks.foldl assocIncr [] ≠ [] := by
      rw [hcounts]
      simpa using firstOccs_ne_nil ks hksne
    obtain ⟨r, hfind, hpy⟩ := pyMaxFst_eq_find? _ hcne
    rw [hdef, if_neg hemp, hfold]
    constructor
    · rw [hpy]
      constructor
      · intro hc
        exact absurd hc (by simp)
      · intro hc
        rw [hkeys] at hc
        exact absurd hc hksne
    · intro c hc
      rw [hpy] at hc
      have hcr : c = r.1 := (Option.some.injEq _ _ ▸ hc.symm)
      subst hcr
      rw [hcounts] at hfind
      obtain ⟨hfM, o1, o2, hdecomp, hfail⟩ := find_map_first _ _ _ _ hfind
      have hmemoccs : r.1 ∈ firstOccs ks := by
        rw [hdecomp]
        exact List.mem_append.mpr (Or.inr (List.mem_cons_self _ _))
      have hmemks : r.1 ∈ ks := (mem_firstOccs _ _).mp hmemoccs
      refine ⟨by rw [hkeys]; exact hmemks, ?_, ?_⟩
      · intro x
        rw [hkeys]
        by_cases hx : x ∈ ks
        · have hxo : x ∈ firstOccs ks := (mem_firstOccs _ _).mpr hx
          have hpair : (x, ks.count x) ∈ (firstOccs ks).map (fun y => (y, ks.count y)) :=
            List.mem_map_of_mem _ hxo
          have := le_maxSnd _ _ hpair
          rw [hfM]
          exact this
        · rw [List.count_eq_zero.mpr hx]
          exact Nat.zero_le _
      · intro x hx
        rw [hkeys] at hx ⊢
        have hMpos : ks.count r.1 ≠ 0 := by
          intro h0
          exact (List.count_eq_zero.mp h0) hmemks
        have hxks : x ∈ ks := by
          by_contra hxn
          rw [List.count_eq_zero.mpr hxn] at hx
          exact hMpos hx.symm
        have hxoccs : x ∈ firstOccs ks := (mem_firstOccs _ _).mpr hxks
        rw [hdecomp] at hxoccs
        rcases List.mem_append.mp hxoccs with hx1 | hx2
        · exfalso
          apply hfail x hx1
          rw [hx, hfM]
        · rcases List.mem_cons.mp hx2 with hxr | hxr
          · rw [hxr]
          · have hsorted := firstOccs_sorted ks
            rw [hdecomp] at hsorted
            have h2 := (List.pairwise_append.mp hsorted).2.1
            have h3 := (List.pairwise_cons.mp h2).1
            exact le_of_lt (h3 x hxr)

/-- Witness for C2's amended statement on the tie window: the returned
"computational" has maximal count, and its first occurrence precedes that of
the tied "structural". -/
theorem dominant_error_first_occurrence_witness :
    "computational" ∈ windowErrorKeys tieExample 5
    ∧ (windowErrorKeys tieExample 5).count "structural"
        ≤ (windowErrorKeys tieExample 5).count "computational"
    ∧ (windowErrorKeys tieExample 5).indexOf "computational"
        ≤ (windowErrorKeys tieExample 5).indexOf "structural" :=
  ⟨((dominant_error_first_occurrence tieExample 5).2 "computational" (by decide)).1,
   ((dominant_error_first_occurrence tieExample 5).2 "computational" (by decide)).2.1
      "structural",
   ((dominant_error_first_occurrence tieExample 5).2 "computational" (by decide)).2.2
      "structural" (by decide)⟩

/-! ## Lemmas about the break monitor -/

theorem trigger4_eq (bs : BreakState) :
    (check_break_trigger4 bs).map breakVerdict
      = Except.ok (if trendEscalates bs.error_severity_trend = true
          then (true, "medium") else (false, "low")) := by
  unfold check_break_trigger4 trendEscalates
  by_cases hlen : bs.error_severity_trend.length ≥ 3
  · rw [if_pos hlen, if_pos hlen]
    rcases h3 : takeLastPy 3 bs.error_severity_trend with _ | ⟨x, _ | ⟨y, _ | ⟨z, _ | _⟩⟩⟩
    · simp [breakVerdict, Except.map]
    · simp [breakVerdict, Except.map]
    · simp [breakVerdict, Except.map]
    · by_cases hc : x < y ∧ y < z ∧ z ≥ 2 <;> simp [hc, breakVerdict, Except.map]
    · simp [breakVerdict, Except.map]
  · rw [if_neg hlen, if_neg hlen]
    simp [breakVerdict, Except.map]

theorem trigger3Eval_eq (now : ℚ) (bs : BreakState)
    (hp2 : ParsesOk bs.session_start_time) (hp3 : ParsesOk bs.last_break_taken) :
    trigger3Eval now bs
      = .ok (match fieldVal bs.session_start_time with
             | none => none
             | some s => trigger3Result
                 (match fieldVal bs.last_break_taken with
                  | some b => now - b
                  | none => now - s)) := by
  unfold trigger3Eval
  rcases hss : bs.session_start_time with _ | s2
  · simp [fieldVal]
  · rw [hss] at hp2
    have hp2' : s2 = "" ∨ (isoParse s2).isSome := hp2
    rcases hp2' with hs2 | hs2
    · subst hs2
      simp [fieldVal]
    · obtain ⟨q2, hq2⟩ := Option.isSome_iff_exists.mp hs2
      have hs2ne : ¬s2 = "" := by
        intro hc
        subst hc
        simp [isoParse] at hq2
      simp only [if_neg hs2ne, hq2]
      rcases hlb : bs.last_break_taken with _ | s3
      · simp [fieldVal, hs2ne, hq2]
      · rw [hlb] at hp3
        have hp3' : s3 = "" ∨ (isoParse s3).isSome := hp3
        rcases hp3' with hs3 | hs3
        · subst hs3
          simp [fieldVal, hs2ne, hq2]
        · obtain ⟨q3, hq3⟩ := Option.isSome_iff_exists.mp hs3
          have hs3ne : ¬s3 = "" := by
            intro hc
            subst hc
            simp [isoParse] at hq3
          simp only [if_neg hs3ne, hq3]
          simp [fieldVal, hs2ne, hq2, hs3ne, hq3]

theorem check_break_triggers_eq (now : ℚ) (bs : BreakState) (traj : String)
    (hp2 : ParsesOk bs.session_start_time) (hp3 : ParsesOk bs.last_break_taken) :
    (check_break_triggers now bs traj).map breakVerdict
      = Except.ok (amended_check_break now none (fieldVal bs.session_start_time)
          (fieldVal bs.last_break_taken) bs.break_cooldown_minutes
          bs.consecutive_errors traj bs.error_severity_trend) := by
  unfold check_break_triggers amended_check_break
  by_cases t1 : traj = "declining" ∧ bs.consecutive_errors ≥ 3
  · simp [t1, breakVerdict, Except.map]
  · by_cases t2 : bs.consecutive_errors ≥ 5
    · simp [t1, t2, breakVerdict, Except.map]
    · simp only [if_neg t1, if_neg t2]
      rw [trigger3Eval_eq now bs hp2 hp3]
      have hfalse : ((match (none : Option ℚ) with
          | some t => decide (now - t < (bs.break_cooldown_minutes : ℚ))
          | none => false) = true) = False := by simp
      rw [if_neg (by simp)]
      rcases hfv : fieldVal bs.session_start_time with _ | s
      · simp only [hfv]
        rw [if_neg (by simp)]
        exact trigger4_eq bs
      · simp only [hfv]
        by_cases t3 : (match fieldVal bs.last_break_taken with
            | some b => now - b
            | none => now - s) ≥ 45
        · simp only [trigger3Result, if_pos t3]
          rw [if_pos (by simp [t3])]
          simp [breakVerdict, Except.map]
        · simp only [trigger3Result, if_neg t3]
          rw [if_neg (by simp [t3])]
          exact trigger4_eq bs

theorem check_break_eq_amended (now : ℚ) (bs : BreakState) (traj : String)
    (h : WFBreakState bs) :
    (check_break_needed now bs traj).map breakVerdict
      = Except.ok (amended_check_break now (fieldVal bs.last_break_suggestion)
          (fieldVal bs.session_start_time) (fieldVal bs.last_break_taken)
          bs.break_cooldown_minutes bs.consecutive_errors traj bs.error_severity_trend) := by
  obtain ⟨hp1, hp2, hp3⟩ := h
  unfold check_break_needed
  rcases hls : bs.last_break_suggestion with _ | s1
  · simp only [fieldVal]
    exact check_break_triggers_eq now bs traj hp2 hp3
  · rw [hls] at hp1
    have hp1' : s1 = "" ∨ (isoParse s1).isSome := hp1
    rcases hp1' with hs1 | hs1
    · subst hs1
      simp only [fieldVal, if_pos rfl]
      exact check_break_triggers_eq now bs traj hp2 hp3
    · obtain ⟨q1, hq1⟩ := Option.isSome_iff_exists.mp hs1
      have hs1ne : ¬s1 = "" := by
        intro hc
        subst hc
        simp [isoParse] at hq1
      have hfv1 : fieldVal (some s1) = some q1 := by
        simp [fieldVal, hs1ne, hq1]
      rw [hfv1]
      simp only [if_neg hs1ne, hq1]
      by_cases hcool : now - q1 < (bs.break_cooldown_minutes : ℚ)
      · have hd : decide (now - q1 < (bs.break_cooldown_minutes : ℚ)) = true :=
          decide_eq_true hcool
        simp only [hd]
        unfold amended_check_break
        rw [if_pos (by simp [hcool])]
        simp [breakVerdict, Except.map]
      · have hd : decide (now - q1 < (bs.break_cooldown_minutes : ℚ)) = false :=
          decide_eq_false hcool
        simp only [hd]
        rw [check_break_triggers_eq now bs traj hp2 hp3]
        congr 1
        unfold amended_check_break
        rw [show (match (none : Option ℚ) with
            | some t => decide (now - t < (bs.break_cooldown_minutes : ℚ))
            | none => false) = false from rfl]
        rw [show (match (some q1 : Option ℚ) with
            | some t => decide (now - t < (bs.break_cooldown_minutes : ℚ))
            | none => false)
            = decide (now - q1 < (bs.break_cooldown_minutes : ℚ)) from rfl, hd]

/-- C3 counterexample: a break taken 50 minutes ago in a PREVIOUS session
(session started 10 minutes ago, so the last break predates the session).
The code measures from the last break taken and suggests a break
(needed, medium); the claim's reference definition — which measures from the
last break only when a break has already occurred THIS session — measures
10 minutes from the session start and stays silent. -/
theorem break_session_qualifier_counterexample :
    (check_break_needed 60
        { session_start_time := some "50", last_break_taken := some "10" } "flat").map
        breakVerdict
      = Except.ok (true, "medium")
    ∧ claimed_check_break 60 none (some 50) (some 10) 10 0 "flat" [] = (false, "low")
    ∧ ((true, "medium") : Bool × String) ≠ ((false, "low") : Bool × String) := by
  refine ⟨?_, ?_, by decide⟩
  · rw [check_break_eq_amended 60
      { session_start_time := some "50", last_break_taken := some "10" } "flat" (by decide)]
    have hfa : isoParse "50" = some 50 := by decide
    have hfb : isoParse "10" = some 10 := by decide
    have ht3 : ((60 : ℚ) - 10 ≥ 45) := by norm_num
    simp [hfa, hfb, amended_check_break, fieldVal, ht3, trendEscalates]
  · have h1 : ¬((10 : ℚ) ≥ 50) := by norm_num
    have h2 : ¬((60 : ℚ) - 50 ≥ 45) := by norm_num
    simp [claimed_check_break, trendEscalates, h1, h2]

/-- C3 amended: with every truthy persisted timestamp parseable, the
needed/urgency verdict of `check_break_needed` equals the claim's reference
definition amended in one place: the session-length trigger measures from
`last_break_taken` whenever that field is set — even when the recorded break
predates the current session — not only when a break has already occurred
this session. -/
theorem check_break_needed_matches_amended_reference :
    ∀ (now : ℚ) (bs : BreakState) (trajectory : String), WFBreakState bs →
      (check_break_needed now bs trajectory).map breakVerdict
        = Except.ok (amended_check_break now (fieldVal bs.last_break_suggestion)
            (fieldVal bs.session_start_time) (fieldVal bs.last_break_taken)
            bs.break_cooldown_minutes bs.consecutive_errors trajectory
            bs.error_severity_trend) :=
  fun now bs traj h => check_break_eq_amended now bs traj h

/-- Witness for C3's amended statement on a five-consecutive-error break
state. -/
theorem check_break_needed_matches_amended_reference_witness :
    (check_break_needed 0 { consecutive_errors := 5 } "flat").map breakVerdict
      = Except.ok (amended_check_break 0
          (fieldVal ({ consecutive_errors := 5 } : BreakState).last_break_suggestion)
          (fieldVal ({ consecutive_errors := 5 } : BreakState).session_start_time)
          (fieldVal ({ consecutive_errors := 5 } : BreakState).last_break_taken)
          ({ consecutive_errors := 5 } : BreakState).break_cooldown_minutes
          ({ consecutive_errors := 5 } : BreakState).consecutive_errors "flat"
          ({ consecutive_errors := 5 } : BreakState).error_severity_trend) :=
  check_break_needed_matches_amended_reference 0 { consecutive_errors := 5 } "flat"
    (by decide)

/-- C8 counterexample: `check_break_needed` is not total over well-typed
string contents of the persisted timestamp fields — a truthy but unparsable
`last_break_suggestion` raises `ValueError` (modelled as `Except.error`),
and so does `compute_recommendation` when handed such a break state. -/
theorem break_monitor_raises_counterexample :
    check_break_needed 0 { last_break_suggestion := some "not-a-date" } "flat"
      = Except.error isoError
    ∧ compute_recommendation 0 "flat" none 0 none "math"
        (some { last_break_suggestion := some "not-a-date" })
      = Except.error isoError := by
  constructor
  · rfl
  · rfl

theorem compute_trajectory_total (attempts : List Attempt) (window : Nat) :
    compute_trajectory attempts window = "unknown"
    ∨ compute_trajectory attempts window = "improving"
    ∨ compute_trajectory attempts window = "declining"
    ∨ compute_trajectory attempts window = "flat" := by
  by_cases h1 : attempts.length < 3
  · simp [compute_trajectory, h1]
  · by_cases h2 : (takeLastPy window attempts).length < 3
    · simp [compute_trajectory, h1, h2]
    · simp only [compute_trajectory, if_neg h1, if_neg h2]
      split_ifs <;> simp

theorem dominant_error_none_of_all_correct (attempts : List Attempt) (window : Nat)
    (h : ∀ a ∈ attempts, a.is_correct = true) :
    dominant_error_type attempts window = none := by
  have hfil : (takeLastPy window attempts).filter (fun a => !a.is_correct) = [] := by
    rw [List.filter_eq_nil]
    intro a ha
    have : a ∈ attempts := by
      unfold takeLastPy at ha
      split at ha
      · exact ha
      · exact List.drop_subset _ _ ha
    simp [h a this]
  rw [show dominant_error_type attempts window
      = (if ((takeLastPy window attempts).filter (fun a => !a.is_correct)).isEmpty then none
         else pyMaxFst (((takeLastPy window attempts).filter (fun a => !a.is_correct)).foldl
             (fun cs a => assocIncr cs (errKey a)) [])) from rfl]
  rw [hfil]
  rfl

theorem check_break_needed_ok (now : ℚ) (bs : BreakState) (traj : String)
    (h : WFBreakState bs) : (check_break_needed now bs traj).isOk = true := by
  have heq := check_break_eq_amended now bs traj h
  cases hcb : check_break_needed now bs traj with
  | error e => rw [hcb] at heq; exact absurd heq (by simp [Except.map])
  | ok c => rfl

theorem compute_recommendation_ok (now : ℚ) (traj : String) (dom : Option String)
    (mastery : ℚ) (tg : Option TopicGraph) (topic : String) (obs : Option BreakState)
    (h : ∀ bs, obs = some bs → WFBreakState bs) :
    (compute_recommendation now traj dom mastery tg topic obs).isOk = true := by
  rcases obs with _ | bs
  · rfl
  · have hok := check_break_needed_ok now bs traj (h bs rfl)
    cases hcb : check_break_needed now bs traj with
    | error e => rw [hcb] at hok; exact absurd hok (by simp [Except.isOk, Except.toBool])
    | ok c =>
      simp only [compute_recommendation, hcb]
      split <;> rfl

/-- C8 amended: the pure decision functions are total (`compute_trajectory`
always returns one of the four labels, `compute_mastery` always returns a
number, `dominant_error_type` returns the no-error sentinel on all-correct
histories), and `check_break_needed` / `compute_recommendation` return a
result rather than raising for every input whose truthy persisted timestamp
fields parse — but not for arbitrary well-typed timestamp strings, where
they raise `ValueError`. -/
theorem decision_functions_total :
    (∀ (attempts : List Attempt) (window : Nat),
        compute_trajectory attempts window = "unknown"
        ∨ compute_trajectory attempts window = "improving"
        ∨ compute_trajectory attempts window = "declining"
        ∨ compute_trajectory attempts window = "flat")
    ∧ (∀ (ts : TopicState) (window : Nat), 0 ≤ compute_mastery ts window)
    ∧ (∀ (attempts : List Attempt) (window : Nat),
        (∀ a ∈ attempts, a.is_correct = true) →
        dominant_error_type attempts window = none)
    ∧ (∀ (now : ℚ) (bs : BreakState) (trajectory : String), WFBreakState bs →
        (check_break_needed now bs trajectory).isOk = true)
    ∧ (∀ (now : ℚ) (trajectory : String) (dominant_error : Option String) (mastery : ℚ)
        (topic_graph : Option TopicGraph) (topic : String) (break_state : Option BreakState),
        (∀ bs, break_state = some bs → WFBreakState bs) →
        (compute_recommendation now trajectory dominant_error mastery topic_graph topic
            break_state).isOk = true) :=
  ⟨compute_trajectory_total, compute_mastery_nonneg, dominant_error_none_of_all_correct,
   check_break_needed_ok, compute_recommendation_ok⟩

/-- Witness for C8's amended statement: the no-signal break state (all
fields absent) yields a result from both the break monitor and the
recommendation engine, and an all-correct history yields the no-error
sentinel. -/
theorem decision_functions_total_witness :
    dominant_error_type [make_attempt true none] 5 = none
    ∧ (check_break_needed 0 {} "flat").isOk = true
    ∧ (compute_recommendation 0 "flat" none 0 none "math" (some {})).isOk = true :=
  ⟨decision_functions_total.2.2.1 [make_attempt true none] 5 (by decide),
   decision_functions_total.2.2.2.1 0 {} "flat" (by decide),
   decision_functions_total.2.2.2.2 0 "flat" none 0 none "math" (some {})
     (by intro bs hbs; cases hbs; decide)⟩

/-- C4 counterexample: with trajectory declining, no dominant error,
mastery 0.9 and a prerequisite graph for the topic, the advancement rule
(rule 3: dominant none and mastery ≥ 0.85) fires BEFORE the declining rule,
so the result is keep_grinding, not the go_back the claim requires
"regardless of dominant_error and mastery". -/
theorem declining_vs_advancement_counterexample :
    (compute_recommendation 0 "declining" none (9/10)
        (some { prerequisites := [("math", ["arithmetic"])] }) "math" none).map
        (fun r => r.action)
      = Except.ok "keep_grinding"
    ∧ ¬((compute_recommendation 0 "declining" none (9/10)
        (some { prerequisites := [("math", ["arithmetic"])] }) "math" none).map
        (fun r => r.action)
      = Except.ok "go_back") := by
  have hm : (9/10 : ℚ) ≥ 17/20 := by norm_num
  constructor
  · simp [compute_recommendation, recommendation_rest, hm, Except.map]
  · simp [compute_recommendation, recommendation_rest, hm, Except.map]

/-- C4 amended: `compute_recommendation` is an ordered rule list with first
match winning; whenever trajectory is declining and no break, warmup, or
advancement rule (dominant none ∧ mastery ≥ 0.85) fired first, it returns
go_back with the first entry of the topic's non-empty prerequisite list
regardless of the dominant error category and of any further mastery value,
and take_break (urgency medium, post-break warmup) when that list is empty
or absent. -/
theorem declining_rule_after_advancement :
    ∀ (now : ℚ) (dominant_error : Option String) (mastery : ℚ)
      (topic_graph : Option TopicGraph) (topic : String) (break_state : Option BreakState),
      (match break_state with
       | none => True
       | some bs => bs.post_break_warmup = false
           ∧ ∃ c, check_break_needed now bs "declining" = Except.ok c ∧ c.needed = false) →
      ¬(dominant_error = none ∧ mastery ≥ 17/20) →
      compute_recommendation now "declining" dominant_error mastery topic_graph topic
          break_state
        = Except.ok
            (match (match topic_graph with
                    | some tg => dictGet tg.prerequisites topic
                    | none => none) with
             | some (p :: _) =>
               { action := "go_back",
                 detail := "Trajectory declining. Revisit prerequisite material.",
                 prerequisite_topic := some p }
             | _ =>
               { action := "take_break",
                 detail := "Trajectory declining and no prerequisite to fall back to. Suggest a short break before trying a different angle.",
                 urgency := some "medium",
                 post_break_warmup := some true }) := by
  intro now dom mastery tg topic obs hbreak hadv
  rcases obs with _ | bs
  · simp only [compute_recommendation]
    congr 1
    unfold recommendation_rest
    rw [if_neg (by simp), if_neg hadv, if_pos rfl]
  · obtain ⟨hwarm, c, hcb, hneed⟩ := hbreak
    simp only [compute_recommendation, hcb]
    rw [if_neg (by simp [hneed])]
    congr 1
    unfold recommendation_rest
    rw [if_neg (by simp [hwarm]), if_neg hadv, if_pos rfl]

/-- Witness for C4's amended statement: the spec's own example, declining
trajectory with structural dominant error, mastery 0.3 and the math →
arithmetic graph. -/
theorem declining_rule_after_advancement_witness :
    compute_recommendation 0 "declining" (some "structural") (3/10)
        (some { prerequisites := [("math", ["arithmetic"])] }) "math" none
      = Except.ok
          { action := "go_back",
            detail := "Trajectory declining. Revisit prerequisite material.",
            prerequisite_topic := some "arithmetic" } := by
  rw [declining_rule_after_advancement 0 (some "structural") (3/10)
      (some { prerequisites := [("math", ["arithmetic"])] }) "math" none trivial
      (by rintro ⟨h, -⟩; cases h)]
  rfl

/-! ## Lemmas about the tool layer invariant (claim C9) -/

theorem compute_mastery_only_history (ts ts' : TopicState) (w : Nat)
    (h : ts.attempt_history = ts'.attempt_history) :
    compute_mastery ts w = compute_mastery ts' w := by
  rw [show compute_mastery ts w
        = (if ts.attempt_history.isEmpty then 0
           else masteryCore (takeLastPy w ts.attempt_history)) from rfl,
      show compute_mastery ts' w
        = (if ts'.attempt_history.isEmpty then 0
           else masteryCore (takeLastPy w ts'.attempt_history)) from rfl, h]

theorem validTS_congr (ts ts' : TopicState) (hm : ts'.mastery_level = ts.mastery_level)
    (ht : ts'.trajectory = ts.trajectory) (hh : ts'.attempt_history = ts.attempt_history) :
    validTS ts → validTS ts' := by
  rintro ⟨h1, h2⟩
  constructor
  · rw [hm, h1]
    exact compute_mastery_only_history ts ts' 10 hh.symm
  · rw [ht, h2, hh]

theorem validTS_default : validTS {} := ⟨rfl, rfl⟩

theorem dictSet_forall {α : Type} (P : α → Prop) :
    ∀ (d : List (String × α)) (k : String) (v : α),
      (∀ kv ∈ d, P kv.2) → P v → ∀ kv ∈ dictSet d k v, P kv.2 := by
  intro d
  induction d with
  | nil =>
    intro k v _ hv kv hkv
    rcases List.mem_singleton.mp hkv with rfl
    exact hv
  | cons a t ih =>
    intro k v hall hv kv hkv
    rw [dictSet] at hkv
    split at hkv
    · rcases List.mem_cons.mp hkv with rfl | hm
      · exact hv
      · exact hall kv (List.mem_cons.mpr (Or.inr hm))
    · rcases List.mem_cons.mp hkv with rfl | hm
      · exact hall a (List.mem_cons_self a t)
      · exact ih k v (fun q hq => hall q (List.mem_cons.mpr (Or.inr hq))) hv kv hm

theorem dictGet_mem {α : Type} :
    ∀ (d : List (String × α)) (k : String) (v : α), dictGet d k = some v → (k, v) ∈ d := by
  intro d
  induction d with
  | nil => intro k v h; simp [dictGet] at h
  | cons a t ih =>
    intro k v h
    rw [dictGet, List.lookup] at h
    split at h
    · rename_i hbeq
      rcases Option.some.injEq _ _ ▸ h with rfl
      have hk : k = a.1 := by simpa [beq_iff_eq] using hbeq
      subst hk
      exact List.mem_cons_self a t
    · exact List.mem_cons.mpr (Or.inr (ih k v h))

theorem ensure_topic_inv (p : LearnerProfile) (topic : String) (h : ProfileInv p) :
    ProfileInv (ensure_topic p topic) := by
  unfold ensure_topic
  split
  · exact h
  · exact dictSet_forall validTS p.topics topic {} h validTS_default

theorem updateTopic_inv (p : LearnerProfile) (topic : String) (f : TopicState → TopicState)
    (h : ProfileInv p) (hf : ∀ ts, validTS ts → validTS (f ts)) :
    ProfileInv (updateTopic p topic f) := by
  unfold updateTopic
  split
  · rename_i ts hget
    exact dictSet_forall validTS p.topics topic (f ts) h
      (hf ts (h (topic, ts) (dictGet_mem p.topics topic ts hget)))
  · exact h

theorem start_session_inv (nowS : String) (p0 : LearnerProfile) (topic0 : String)
    (h : ProfileInv p0) : ProfileInv (start_session nowS p0 topic0) := by
  simp only [start_session]
  have h2 : ProfileInv (ensure_topic { p0 with session_count := p0.session_count + 1 }
      (normalize_topic topic0)) :=
    ensure_topic_inv _ _ (fun kv hkv => h kv hkv)
  split
  · exact h2
  · rename_i ts hget
    have hts : validTS ts := h2 _ (dictGet_mem _ _ _ hget)
    unfold ProfileInv
    exact dictSet_forall validTS _ _ _ h2 (validTS_congr ts _ rfl rfl rfl hts)

theorem record_attempt_inv (nowS : String) (p0 : LearnerProfile)
    (topic0 qid la ca : String) (ic : Bool) (et es bl : Option String)
    (h : ProfileInv p0) :
    ProfileInv (record_attempt nowS p0 topic0 qid la ca ic et es bl) := by
  simp only [record_attempt]
  have hens : ProfileInv (ensure_topic p0 (normalize_topic topic0)) :=
    ensure_topic_inv _ _ h
  split
  · exact hens
  · rename_i ts hget
    intro kv hkv
    refine dictSet_forall validTS _ _ _ hens ⟨?_, ?_⟩ kv hkv
    · exact compute_mastery_only_history _ _ 10 rfl
    · rfl

theorem record_misconception_inv (nowS : String) (p0 : LearnerProfile)
    (topic0 description : String) (h : ProfileInv p0) :
    ProfileInv (record_misconception nowS p0 topic0 description) := by
  unfold record_misconception
  exact updateTopic_inv _ _ _ (ensure_topic_inv _ _ h)
    (fun ts hts => validTS_congr ts _ rfl rfl rfl hts)

theorem resolve_misconception_inv (nowS : String) (p0 : LearnerProfile)
    (topic0 description : String) (h : ProfileInv p0) :
    ProfileInv (resolve_misconception nowS p0 topic0 description) := by
  simp only [resolve_misconception]
  split
  · exact updateTopic_inv _ _ _ h (fun ts hts => validTS_congr ts _ rfl rfl rfl hts)
  · exact h

theorem store_topic_graph_inv (rebuild : LearnerProfile → LearnerProfile)
    (hreb : ∀ q, (rebuild q).topics = q.topics) (p0 : LearnerProfile)
    (topic0 : String) (prerequisites : List (String × List String))
    (h : ProfileInv p0) :
    ProfileInv (store_topic_graph rebuild p0 topic0 prerequisites) := by
  unfold store_topic_graph
  intro kv hkv
  rw [hreb] at hkv
  exact h kv hkv

theorem add_topics_inv (p0 : LearnerProfile) (topics : List String) (h : ProfileInv p0) :
    ProfileInv (add_topics p0 topics) := by
  unfold add_topics
  induction topics generalizing p0 with
  | nil => exact h
  | cons t ts ih =>
    rw [List.foldl_cons]
    exact ih _ (ensure_topic_inv _ _ h)

theorem delete_topic_inv (rebuild : LearnerProfile → LearnerProfile)
    (hreb : ∀ q, (rebuild q).topics = q.topics) (p0 : LearnerProfile)
    (topic0 : String) (h : ProfileInv p0) :
    ProfileInv (delete_topic rebuild p0 topic0) := by
  simp only [delete_topic]
  split
  · intro kv hkv
    rw [hreb] at hkv
    exact h kv (List.mem_of_mem_filter hkv)
  · exact h

theorem record_break_inv (nowS : String) (p0 : LearnerProfile) (topic0 : String)
    (h : ProfileInv p0) : ProfileInv (record_break nowS p0 topic0) := by
  simp only [record_break]
  split
  · exact h
  · rename_i ts hget
    have hts : validTS ts := h _ (dictGet_mem _ _ _ hget)
    unfold ProfileInv
    exact dictSet_forall validTS _ _ _ h (validTS_congr ts _ rfl rfl rfl hts)

theorem end_session_inv (nowS : String) (p0 : LearnerProfile) (h : ProfileInv p0) :
    ProfileInv (end_session nowS p0) :=
  fun kv hkv => h kv hkv

/-- C9: every profile-mutating tool of the server other than the manual
override `update_topic_mastery` preserves the invariant that each stored
topic's `mastery_level` and `trajectory` equal re-running `compute_mastery`
and `compute_trajectory` (at the defaults the tool layer uses) over that
topic's current attempt history; for the two tools that call the absent
`rebuild_unified_graph` the preservation is proved for every rebuild that
leaves the topic states unchanged.  (`get_assessment` and
`get_learner_profile` write nothing.) -/
theorem tool_layer_invariant :
    (∀ (nowS : String) (p : LearnerProfile) (topic : String), ProfileInv p →
        ProfileInv (start_session nowS p topic))
    ∧ (∀ (nowS : String) (p : LearnerProfile) (topic qid la ca : String) (ic : Bool)
        (et es bl : Option String), ProfileInv p →
        ProfileInv (record_attempt nowS p topic qid la ca ic et es bl))
    ∧ (∀ (nowS : String) (p : LearnerProfile) (topic d : String), ProfileInv p →
        ProfileInv (record_misconception nowS p topic d))
    ∧ (∀ (nowS : String) (p : LearnerProfile) (topic d : String), ProfileInv p →
        ProfileInv (resolve_misconception nowS p topic d))
    ∧ (∀ rebuild : LearnerProfile → LearnerProfile,
        (∀ q, (rebuild q).topics = q.topics) →
        ∀ (p : LearnerProfile) (topic : String) (prereqs : List (String × List String)),
          ProfileInv p → ProfileInv (store_topic_graph rebuild p topic prereqs))
    ∧ (∀ (p : LearnerProfile) (topics : List String), ProfileInv p →
        ProfileInv (add_topics p topics))
    ∧ (∀ rebuild : LearnerProfile → LearnerProfile,
        (∀ q, (rebuild q).topics = q.topics) →
        ∀ (p : LearnerProfile) (topic : String), ProfileInv p →
          ProfileInv (delete_topic rebuild p topic))
    ∧ (∀ (nowS : String) (p : LearnerProfile) (topic : String), ProfileInv p →
        ProfileInv (record_break nowS p topic))
    ∧ (∀ (nowS : String) (p : LearnerProfile), ProfileInv p →
        ProfileInv (end_session nowS p)) :=
  ⟨start_session_inv, record_attempt_inv, record_misconception_inv,
   resolve_misconception_inv,
   fun rb hrb p t pr h => store_topic_graph_inv rb hrb p t pr h,
   add_topics_inv,
   fun rb hrb p t h => delete_topic_inv rb hrb p t h,
   record_break_inv, end_session_inv⟩

/-- Witness for C9 on a fresh profile (empty topic map, so the invariant
holds by inspection), exercising each preserved operation once with the
identity as the topic-preserving rebuild. -/
theorem tool_layer_invariant_witness :
    ProfileInv (start_session "t0" { learner_id := "alice" } "Algebra")
    ∧ ProfileInv (record_attempt "t1" { learner_id := "alice" } "Algebra" "q1" "4" "4"
        true none none none)
    ∧ ProfileInv (record_misconception "t2" { learner_id := "alice" } "Algebra" "sign errors")
    ∧ ProfileInv (resolve_misconception "t3" { learner_id := "alice" } "Algebra" "sign errors")
    ∧ ProfileInv (store_topic_graph id { learner_id := "alice" } "Algebra"
        [("algebra", ["arithmetic"])])
    ∧ ProfileInv (add_topics { learner_id := "alice" } ["Algebra", "Calculus"])
    ∧ ProfileInv (delete_topic id { learner_id := "alice" } "Algebra")
    ∧ ProfileInv (record_break "t4" { learner_id := "alice" } "Algebra")
    ∧ ProfileInv (end_session "t5" { learner_id := "alice" }) :=
  ⟨tool_layer_invariant.1 "t0" _ "Algebra" (by decide),
   tool_layer_invariant.2.1 "t1" _ "Algebra" "q1" "4" "4" true none none none (by decide),
   tool_layer_invariant.2.2.1 "t2" _ "Algebra" "sign errors" (by decide),
   tool_layer_invariant.2.2.2.1 "t3" _ "Algebra" "sign errors" (by decide),
   tool_layer_invariant.2.2.2.2.1 id (fun q => rfl) _ "Algebra"
     [("algebra", ["arithmetic"])] (by decide),
   tool_layer_invariant.2.2.2.2.2.1 _ ["Algebra", "Calculus"] (by decide),
   tool_layer_invariant.2.2.2.2.2.2.1 id (fun q => rfl) _ "Algebra" (by decide),
   tool_layer_invariant.2.2.2.2.2.2.2.1 "t4" _ "Algebra" (by decide),
   tool_layer_invariant.2.2.2.2.2.2.2.2 "t5" _ (by decide)⟩
